import Mathlib

/-!
# renamatic: the rename walk, the directory run and the structural comparator

A shallow embedding of `internal/src_handler.go` and `internal/astutils.go`.

The program works on `go/ast` trees.  `Node` below stands for a value of the
interface `ast.Node`: the node kinds the program distinguishes have their own
constructor, every other kind of the Go grammar is an `Other` node that carries
its kind name, its own text and its child nodes in `ast.Walk` order.
-/

namespace Renamatic

/-- The `token.Token` of a general declaration. -/
inductive Token where
  | IMPORT
  | CONST
  | TYPE
  | VAR
  deriving DecidableEq, Repr

/-- A value of the interface `ast.Node` (a tree, since children are nodes).

* `nil` is the nil interface value.
* `Ident.name`, `File.name`, `FuncDecl.name` and `SelectorExpr.sel` are the
  `Name` strings of non-nil `*ast.Ident` fields.
* `FuncDecl.recv` is `nil` for a function without receiver.
* `FuncDecl.body` has static type `*ast.BlockStmt`: it is a `BlockStmt`, or
  `BlockStmtNil` (the nil pointer) for a declaration without body.  As an
  `ast.Node` the nil pointer is a non-nil interface of dynamic type
  `*ast.BlockStmt`.
* `ImportSpec.path` is `Path.Value`. -/
inductive Node where
  | nil
  | File (name : String) (decls : List Node)
  | GenDecl (tok : Token) (specs : List Node)
  | FuncDecl (recv : Node) (name : String) (typ : Node) (body : Node)
  | ImportSpec (path : String)
  | BlockStmt (list : List Node)
  | BlockStmtNil
  | ExprStmt (x : Node)
  | Ident (name : String)
  | BasicLit (value : String)
  | CallExpr (fn : Node) (args : List Node)
  | SelectorExpr (x : Node) (sel : String)
  | ParenExpr (x : Node)
  | IndexExpr (x : Node) (index : Node)
  | Other (kind : String) (text : String) (children : List Node)
  deriving Repr

/-- The dynamic type of a non-nil `ast.Node`, as printed by `%T`. -/
inductive Kind where
  | File
  | GenDecl
  | FuncDecl
  | ImportSpec
  | BlockStmt
  | ExprStmt
  | Ident
  | BasicLit
  | CallExpr
  | SelectorExpr
  | ParenExpr
  | IndexExpr
  | Other (name : String)
  | Nil
  deriving DecidableEq, Repr

/-- The dynamic type of a node (`Kind.Nil` for the nil interface). -/
def Node.kind : Node → Kind
  | .nil => .Nil
  | .File _ _ => .File
  | .GenDecl _ _ => .GenDecl
  | .FuncDecl _ _ _ _ => .FuncDecl
  | .ImportSpec _ => .ImportSpec
  | .BlockStmt _ => .BlockStmt
  | .BlockStmtNil => .BlockStmt
  | .ExprStmt _ => .ExprStmt
  | .Ident _ => .Ident
  | .BasicLit _ => .BasicLit
  | .CallExpr _ _ => .CallExpr
  | .SelectorExpr _ _ => .SelectorExpr
  | .ParenExpr _ => .ParenExpr
  | .IndexExpr _ _ => .IndexExpr
  | .Other k _ _ => .Other k

/-- The Go map `Mapping[string, string]`, as its list of entries; `lookup`
is the two-result index expression `m[k]`. -/
abbrev Mapping := List (String × String)

/-- The index expression `newName, exists := m[k]`. -/
def Mapping.lookup (m : Mapping) (k : String) : Option String :=
  List.lookup k m

/-! ## `src_handler.go` -/

/-- Source `isStdChain`: recursively checks whether the given expression is
rooted in the "std" identifier.  A nil interface and every kind other than
identifier, selector and call fall in the `default` arm. -/
def isStdChain : Node → Bool
  | .Ident name => name == "std"
  | .SelectorExpr x _ => isStdChain x
  | .CallExpr fn _ => isStdChain fn
  | _ => false

/-- The guarded assignment `selExpr.Sel.Name = newName` of `Transform`: the
member name of the selector `x.sel` once `Transform` has run on it. -/
def transformSel (m : Mapping) (x : Node) (sel : String) : String :=
  if isStdChain x then
    match m.lookup sel with
    | some newName => newName
    | none => sel
  else sel

/-- Source `StdFunctionTransformer.Transform`: the node as `Transform` leaves
it, and the boolean it returns. -/
def Transform (m : Mapping) : Node → Node × Bool
  | .SelectorExpr x sel => (.SelectorExpr x (transformSel m x sel), true)
  | n => (n, true)

mutual
/-- The call `ast.Inspect(file, p.transformer.Transform)` of `ProcessFile`: the
tree after the pre-order walk.  `Transform` runs on a node before its children
are walked, and it returns true at every node, so every child is walked. -/
def Inspect (m : Mapping) : Node → Node
  | .nil => .nil
  | .File name decls => .File name (InspectList m decls)
  | .GenDecl tok specs => .GenDecl tok (InspectList m specs)
  | .FuncDecl recv name typ body =>
      .FuncDecl (Inspect m recv) name (Inspect m typ) (Inspect m body)
  | .ImportSpec path => .ImportSpec path
  | .BlockStmt list => .BlockStmt (InspectList m list)
  | .BlockStmtNil => .BlockStmtNil
  | .ExprStmt x => .ExprStmt (Inspect m x)
  | .Ident name => .Ident name
  | .BasicLit value => .BasicLit value
  | .CallExpr fn args => .CallExpr (Inspect m fn) (InspectList m args)
  | .SelectorExpr x sel => .SelectorExpr (Inspect m x) (transformSel m x sel)
  | .ParenExpr x => .ParenExpr (Inspect m x)
  | .IndexExpr x index => .IndexExpr (Inspect m x) (Inspect m index)
  | .Other kind text children => .Other kind text (InspectList m children)
/-- The walk over a list of children, in order. -/
def InspectList (m : Mapping) : List Node → List Node
  | [] => []
  | n :: ns => Inspect m n :: InspectList m ns
end

/-- The child nodes of a node, in `ast.Walk` order. -/
def Node.children : Node → List Node
  | .nil => []
  | .File _ decls => decls
  | .GenDecl _ specs => specs
  | .FuncDecl recv _ typ body => [recv, typ, body]
  | .ImportSpec _ => []
  | .BlockStmt list => list
  | .BlockStmtNil => []
  | .ExprStmt x => [x]
  | .Ident _ => []
  | .BasicLit _ => []
  | .CallExpr fn args => fn :: args
  | .SelectorExpr x sel => [x, .Ident sel]
  | .ParenExpr x => [x]
  | .IndexExpr x index => [x, index]
  | .Other _ _ children => children

/-- The node with `f` applied to each of its child nodes. -/
def Node.mapChildren (f : Node → Node) : Node → Node
  | .nil => .nil
  | .File name decls => .File name (decls.map f)
  | .GenDecl tok specs => .GenDecl tok (specs.map f)
  | .FuncDecl recv name typ body => .FuncDecl (f recv) name (f typ) (f body)
  | .ImportSpec path => .ImportSpec path
  | .BlockStmt list => .BlockStmt (list.map f)
  | .BlockStmtNil => .BlockStmtNil
  | .ExprStmt x => .ExprStmt (f x)
  | .Ident name => .Ident name
  | .BasicLit value => .BasicLit value
  | .CallExpr fn args => .CallExpr (f fn) (args.map f)
  | .SelectorExpr x sel => .SelectorExpr (f x) sel
  | .ParenExpr x => .ParenExpr (f x)
  | .IndexExpr x index => .IndexExpr (f x) (f index)
  | .Other kind text children => .Other kind text (children.map f)

/-- The node reached from `n` by following a path of child indices. -/
def nodeAt : Node → List Nat → Option Node
  | n, [] => some n
  | n, i :: p =>
    match n.children[i]? with
    | some c => nodeAt c p
    | none => none


/-- A Go string, read character by character.  In UTF-8 the bytes of `/` and
`.` are never part of another character, so a scan by character stops where
the scan by byte of the library stops. -/
abbrev GoString := List Char

/-- The loop of `filepath.Ext`, `for i := len(path) - 1; i >= 0 &&
!os.IsPathSeparator(path[i]); i--`: the call `extLoop path (i + 1)` is the loop
at index `i`.  The path separator is `/`. -/
def extLoop (path : GoString) : Nat → GoString
  | 0 => []
  | i + 1 =>
    match path[i]? with
    | none => []
    | some c =>
      if c = '/' then []
      else if c = '.' then path.drop i
      else extLoop path i

/-- Library `filepath.Ext`: the suffix beginning at the final dot in the final
element of path; it is empty if there is no dot. -/
def Ext (path : GoString) : GoString :=
  extLoop path path.length

/-- Library `strings.HasSuffix`: `len(s) >= len(suffix) &&
s[len(s)-len(suffix):] == suffix`. -/
def HasSuffix (s suffix : GoString) : Bool :=
  decide (suffix.length ≤ s.length) && (s.drop (s.length - suffix.length) == suffix)

/-- Source `GnoFileProcessor.ShouldProcess`: checks if the given file should be
processed. -/
def ShouldProcess (path : String) : Bool :=
  HasSuffix (Ext path.data) ".gno".data

/-- One call of the walk function by `filepath.Walk`, with the state of the file
it is called on: the path, `info.IsDir()`, the `err` argument of the call, the
bytes of the file, and how the operating system answers `os.ReadFile`,
`os.Stat` and `os.WriteFile` on it (`none` is success; a failed write carries
the bytes it leaves in the file).  Permission bits are not part of the state. -/
structure Entry where
  path : String
  isDir : Bool
  walkErr : Option String
  data : String
  readErr : Option String
  statErr : Option String
  writeErr : Option (String × String)
  deriving DecidableEq, Repr

/-- The errors `ProcessDir` returns: the `err` handed over by `filepath.Walk`, or
the text "failed to process file %s: %w". -/
inductive DirError where
  | walk (err : String)
  | failedToProcess (path : String) (err : String)
  deriving DecidableEq, Repr

/-- The fields of `GnoFileProcessor` with the library functions it calls:
`parser.ParseFile` on the bytes read and `format.Node` on the tree. -/
structure GnoFileProcessor where
  mapping : Mapping
  ParseFile : String → Except String Node
  formatNode : Node → Except String String

/-- Source `GnoFileProcessor.ProcessFile`: processes a single file.  The result
is the error returned (`ok ()` for nil) and the file afterwards. -/
def ProcessFile (p : GnoFileProcessor) (f : Entry) : Except String Unit × Entry :=
  match f.readErr with
  | some err => (.error err, f)
  | none =>
    match p.ParseFile f.data with
    | .error err => (.error err, f)
    | .ok file =>
      match p.formatNode (Inspect p.mapping file) with
      | .error err => (.error err, f)
      | .ok buf =>
        match f.statErr with
        | some err => (.error err, f)
        | none =>
          match f.writeErr with
          | some (err, left) => (.error err, { f with data := left })
          | none => (.ok (), { f with data := buf })

/-- The walk function of `ProcessDir`, called on one entry. -/
def walkFn (p : GnoFileProcessor) (e : Entry) : Except DirError Unit × Entry :=
  match e.walkErr with
  | some err => (.error (.walk err), e)
  | none =>
    if !e.isDir && ShouldProcess e.path then
      match ProcessFile p e with
      | (.error err, e2) => (.error (.failedToProcess e.path err), e2)
      | (.ok _, e2) => (.ok (), e2)
    else (.ok (), e)

/-- Source `DirectoryProcessor.ProcessDir` on the sequence of calls that
`filepath.Walk` makes, in walk order: the walk stops at the first call that
returns an error.  The result is that error (`ok ()` for nil) and the entries
afterwards. -/
def ProcessDir (p : GnoFileProcessor) : List Entry → Except DirError Unit × List Entry
  | [] => (.ok (), [])
  | e :: es =>
    match walkFn p e with
    | (.error err, e2) => (.error err, e2 :: es)
    | (.ok _, e2) =>
      match ProcessDir p es with
      | (r, es2) => (r, e2 :: es2)

/-- The directory as a map from path to bytes: the bytes of the file at a
path, if there is one. -/
def readDir (es : List Entry) (path : String) : Option String :=
  match es.find? (fun e => e.path == path) with
  | some e => some e.data
  | none => none

/-! ## `astutils.go` -/

/-- The errors of the comparator, one constructor per `fmt.Errorf` format. -/
inductive CmpError where
  /-- The text "type mismatch: got %T, want %T". -/
  | typeMismatch (got want : Kind)
  /-- The text "one node is nil, other is not". -/
  | nilMismatch
  /-- The text "package name mismatch: got %s, want %s". -/
  | packageName (got want : String)
  /-- The text "identifier mismatch: got %s, want %s". -/
  | identifier (got want : String)
  /-- The text "function comparison failed: %v". -/
  | function (err : CmpError)
  /-- The text "arguments comparison failed: %v". -/
  | arguments (err : CmpError)
  /-- The text "selector X comparison failed: %v". -/
  | selectorX (err : CmpError)
  /-- The text "selector Sel comparison failed: %v". -/
  | selectorSel (err : CmpError)
  /-- The text "length mismatch: got %d, want %d". -/
  | lengthMismatch (got want : Nat)
  /-- The text "comparison failed at index %d: %v". -/
  | atIndex (i : Nat) (err : CmpError)
  /-- The text "declaration type mismatch: expected ... but got %T". -/
  | declTypeMismatch (expected got : Kind)
  /-- The text "function name mismatch: got %s, want %s". -/
  | functionName (got want : String)
  /-- The text "token mismatch: got %v, want %v". -/
  | token (got want : Token)
  /-- The text "spec type mismatch: got %T, want %T". -/
  | specTypeMismatch (got want : Kind)
  /-- The text "import path mismatch: got %s, want %s". -/
  | importPath (got want : String)
  /-- The text "parsing got code: %v". -/
  | parsingGot (err : String)
  /-- The text "parsing want code: %v". -/
  | parsingWant (err : String)
  /-- The text "AST comparison failed: %v". -/
  | astComparison (err : CmpError)
  deriving DecidableEq, Repr

/-- The result type `error` of the comparator: `ok ()` is the nil error. -/
abbrev Result := Except CmpError Unit

instance : DecidableEq Result
  | .ok _, .ok _ => isTrue rfl
  | .error a, .error b =>
    if h : a = b then isTrue (by rw [h]) else isFalse (fun h2 => h (Except.error.inj h2))
  | .ok _, .error _ => isFalse (fun h => by cases h)
  | .error _, .ok _ => isFalse (fun h => by cases h)

/-- The loop `for i := range got` of `compareSlice`, from index `i` on. -/
def compareSliceFrom {α : Type} (cmp : α → α → Result) (i : Nat) :
    List α → List α → Result
  | g :: gs, w :: ws =>
    match cmp g w with
    | .error err => .error (.atIndex i err)
    | .ok _ => compareSliceFrom cmp (i + 1) gs ws
  | _, _ => .ok ()

/-- Source `compareSlice`: compares two slices element by element using the
provided comparator function. -/
def compareSlice {α : Type} (got want : List α) (cmp : α → α → Result) : Result :=
  if got.length ≠ want.length then
    .error (.lengthMismatch got.length want.length)
  else compareSliceFrom cmp 0 got want

/-- The closure of `compareSpecs`: only import specs are compared. -/
def compareSpec : Node → Node → Result
  | .ImportSpec gpath, .ImportSpec wpath =>
    if gpath ≠ wpath then .error (.importPath gpath wpath) else .ok ()
  | .ImportSpec _, wantSpec => .error (.specTypeMismatch .ImportSpec wantSpec.kind)
  | _, _ => .ok ()

/-- Source `compareSpecs`: compares two slices of `ast.Spec`. -/
def compareSpecs (got want : List Node) : Result :=
  compareSlice got want compareSpec

/-- The `compareFunc` of the identifier comparator. -/
def compareIdent (got want : String) : Result :=
  if got ≠ want then .error (.identifier got want) else .ok ()

mutual
/-- Source `compareNode`: compares two `ast.Node` values by the dynamic type of
`got`.  In each arm the `TypeComparator.Compare` call is unfolded: `got` has the
arm's type, so only the assertion on `want` can fail.  The member name `Sel` is
a non-nil `*ast.Ident`, so `compareNode(got.Sel, want.Sel)` is the identifier
rule on the two names. -/
def compareNode : Node → Node → Result
  | .nil, want =>
    match want with
    | .nil => .ok ()
    | _ => .error .nilMismatch
  | .File gname gdecls, want =>
    match want with
    | .nil => .error .nilMismatch
    | .File wname wdecls =>
      if gname ≠ wname then .error (.packageName gname wname)
      else if gdecls.length ≠ wdecls.length then
        .error (.lengthMismatch gdecls.length wdecls.length)
      else compareDeclsFrom 0 gdecls wdecls
    | w => .error (.typeMismatch .File w.kind)
  | .Ident gname, want =>
    match want with
    | .nil => .error .nilMismatch
    | .Ident wname => compareIdent gname wname
    | w => .error (.typeMismatch .Ident w.kind)
  | .CallExpr gfn gargs, want =>
    match want with
    | .nil => .error .nilMismatch
    | .CallExpr wfn wargs =>
      match compareNode gfn wfn with
      | .error err => .error (.function err)
      | .ok _ =>
        match (if gargs.length ≠ wargs.length then
            .error (.lengthMismatch gargs.length wargs.length)
          else compareExprsFrom 0 gargs wargs : Result) with
        | .error err => .error (.arguments err)
        | .ok _ => .ok ()
    | w => .error (.typeMismatch .CallExpr w.kind)
  | .SelectorExpr gx gsel, want =>
    match want with
    | .nil => .error .nilMismatch
    | .SelectorExpr wx wsel =>
      match compareNode gx wx with
      | .error err => .error (.selectorX err)
      | .ok _ =>
        match compareIdent gsel wsel with
        | .error err => .error (.selectorSel err)
        | .ok _ => .ok ()
    | w => .error (.typeMismatch .SelectorExpr w.kind)
  | _, want =>
    match want with
    | .nil => .error .nilMismatch
    | _ => .ok ()
termination_by structural got => got
/-- The loop of `compareSlice` inside `compareExprs`, from index `i` on. -/
def compareExprsFrom (i : Nat) : List Node → List Node → Result
  | g :: gs, w :: ws =>
    match compareNode g w with
    | .error err => .error (.atIndex i err)
    | .ok _ => compareExprsFrom (i + 1) gs ws
  | _, _ => .ok ()
/-- The closure of `compareDecls`, a switch on the type of `gotDecl`. -/
def compareDecl : Node → Node → Result
  | .FuncDecl _ gname _ gbody, wantDecl =>
    match wantDecl with
    | .FuncDecl _ wname _ wbody =>
      if gname ≠ wname then .error (.functionName gname wname)
      else compareNode gbody wbody
    | w => .error (.declTypeMismatch .FuncDecl w.kind)
  | .GenDecl gtok gspecs, wantDecl =>
    match wantDecl with
    | .GenDecl wtok wspecs =>
      if gtok ≠ wtok then .error (.token gtok wtok)
      else compareSpecs gspecs wspecs
    | w => .error (.declTypeMismatch .GenDecl w.kind)
  | _, _ => .ok ()
/-- The loop of `compareSlice` inside `compareDecls`, from index `i` on. -/
def compareDeclsFrom (i : Nat) : List Node → List Node → Result
  | g :: gs, w :: ws =>
    match compareDecl g w with
    | .error err => .error (.atIndex i err)
    | .ok _ => compareDeclsFrom (i + 1) gs ws
  | _, _ => .ok ()
end

/-- Source `compareDecls`: compares two slices of `ast.Decl`. -/
def compareDecls (got want : List Node) : Result :=
  compareSlice got want compareDecl

/-- Source `compareExprs`: compares two slices of `ast.Expr`. -/
def compareExprs (got want : List Node) : Result :=
  compareSlice got want compareNode

/-- Source `TypeComparator[T].Compare`: asserts that both `got` and `want` are of
type `T` and then invokes `compareFunc`. -/
def TypeComparator.Compare (T : Kind) (compareFunc : Node → Node → Result)
    (got want : Node) : Result :=
  if got.kind ≠ T then .error (.typeMismatch got.kind want.kind)
  else if want.kind ≠ T then .error (.typeMismatch got.kind want.kind)
  else compareFunc got want

/-- The `compareFunc` of the file comparator (the same closure in `compareAST`
and in `compareNode`); `Compare` calls it on two `*ast.File` only. -/
def fileCompareFunc : Node → Node → Result
  | .File gname gdecls, .File wname wdecls =>
    if gname ≠ wname then .error (.packageName gname wname)
    else compareDecls gdecls wdecls
  | _, _ => .ok ()

/-- Source `compareAST`: parses two source texts and compares their trees.
The parser `parser.ParseFile` is a parameter; it yields a `*ast.File` or an
error. -/
def compareAST (ParseFile : String → Except String Node) (got want : String) : Result :=
  match ParseFile got with
  | .error err => .error (.parsingGot err)
  | .ok gotAst =>
    match ParseFile want with
    | .error err => .error (.parsingWant err)
    | .ok wantAst =>
      match TypeComparator.Compare .File fileCompareFunc gotAst wantAst with
      | .error err => .error (.astComparison err)
      | .ok _ => .ok ()

/-! ## Sample data of the tests -/

/-- The five entries of `mapping.yml` that `TestLoadMapping` lists. -/
def sampleMapping : Mapping :=
  [("GetCallerAt", "CallerAt"), ("Addr", "Address"), ("GetOrigSend", "OriginSend"),
   ("GetOrigCaller", "OriginCaller"), ("PrevRealm", "PreviousRealm")]

/-- The call `std.<name>()`. -/
def stdCall (name : String) : Node :=
  .CallExpr (.SelectorExpr (.Ident "std") name) []

/-- A file `package main; import <path>; func main() { <stmts> }`, where `path`
is the import path literal, quotes included. -/
def mainFile (path : String) (stmts : List Node) : Node :=
  .File "main"
    [.GenDecl .IMPORT [.ImportSpec path],
     .FuncDecl .nil "main" (.Other "FuncType" "" [.Other "FieldList" "" []])
       (.BlockStmt stmts)]

/-- The parsed `sampleContent` of `TestProcessDir`. -/
def sampleFile : Node :=
  mainFile "\"std\""
    [.ExprStmt (stdCall "GetCallerAt"),
     .ExprStmt (stdCall "SomeOtherFunction"),
     .ExprStmt (.CallExpr (.SelectorExpr (stdCall "PrevRealm") "Addr") []),
     .ExprStmt (.CallExpr (.Ident "Addr") [])]

/-- The parsed `expected` of `TestProcessDir`. -/
def expectedFile : Node :=
  mainFile "\"std\""
    [.ExprStmt (stdCall "CallerAt"),
     .ExprStmt (stdCall "SomeOtherFunction"),
     .ExprStmt (.CallExpr (.SelectorExpr (stdCall "PreviousRealm") "Address") []),
     .ExprStmt (.CallExpr (.Ident "Addr") [])]

/-- The member access `custom.Addr` of `TestProcessDir_NonStdCalls`. -/
def customAddr : Node :=
  .SelectorExpr (.Ident "custom") "Addr"

/-- The parsed `sampleContent` of `TestProcessDir_Nested`: the body of `main` is
`std.Addr()`. -/
def nestedFile : Node :=
  mainFile "\"std\"" [.ExprStmt (stdCall "Addr")]

/-- The parsed `expected` of `TestProcessDir_Nested`: the body of `main` is
`std.Address()`. -/
def nestedExpected : Node :=
  mainFile "\"std\"" [.ExprStmt (stdCall "Address")]

/-- The text `sampleContent` of `TestProcessDir_Nested`. -/
def nestedFileText : String :=
  "package main\n\nimport \"std\"\n\nfunc main() \x7b\n\tstd.Addr()\n\x7d"

/-- The text `expected` of `TestProcessDir_Nested`. -/
def nestedExpectedText : String :=
  "package main\n\nimport \"std\"\n\nfunc main() \x7b\n\tstd.Address()\n\x7d\n"

/-- The results of `parser.ParseFile` on the two texts of
`TestProcessDir_Nested`; every other text is reported as an error here. -/
def nestedParseFile (src : String) : Except String Node :=
  if src = nestedFileText then .ok nestedFile
  else if src = nestedExpectedText then .ok nestedExpected
  else .error "syntax error"

/-- The text `invalidContent` of `TestProcessDir_InvalidSyntax`. -/
def invalidText : String :=
  "package main\n\nimport \"std\"\n\nfunc main() \x7b\n\tstd.Addr( // missing closing parenthesis\n"

/-- The results of `format.Node` on files of the shape of
`TestProcessDir_Nested`, with one call `std.<name>()` as body; every other tree
is reported as an error here. -/
def nestedFormat : Node → Except String String
  | .File "main" [.GenDecl .IMPORT [.ImportSpec "\"std\""],
      .FuncDecl .nil "main" _
        (.BlockStmt [.ExprStmt (.CallExpr (.SelectorExpr (.Ident "std") name) [])])] =>
    .ok ("package main\n\nimport \"std\"\n\nfunc main() \x7b\n\tstd." ++ name ++ "()\n\x7d\n")
  | _ => .error "unsupported tree"

/-- The processor of the tests: the mapping of `mapping.yml`, with the parser
and the printer restricted to the texts of `TestProcessDir_Nested`. -/
def sampleProcessor : GnoFileProcessor :=
  ⟨sampleMapping, nestedParseFile, nestedFormat⟩

/-- A regular file that the operating system reads and writes without error. -/
def regularFile (path data : String) : Entry :=
  ⟨path, false, none, data, none, none, none⟩

/-- A directory entry. -/
def directory (path : String) : Entry :=
  ⟨path, true, none, "", none, none, none⟩

/-- A directory with the file of `TestProcessDir_Nested`, the file of
`TestProcessDir_InvalidSyntax`, the file of `TestProcessDir_IgnoresNonGnoFiles`
and one more file like the first, in walk order. -/
def sampleDir : List Entry :=
  [directory "tmp",
   regularFile "tmp/a.gno" nestedFileText,
   regularFile "tmp/b.gno" invalidText,
   regularFile "tmp/sample.txt" "This is not a gno file.",
   regularFile "tmp/z.gno" nestedFileText]

/-- The walk of a root that does not exist: `filepath.Walk` calls the walk
function once, with the error of `os.Lstat` and no file information. -/
def missingRoot : List Entry :=
  [⟨"missing", false, some "lstat missing: no such file or directory", "", none, none, none⟩]

/-! ## Spec-side definitions -/

/-- The spec's words for a chain rooted in the qualifier: an identifier named
exactly "std", wrapped any number of times as the receiver of a member access
or as the called function of a call. -/
inductive StdRooted : Node → Prop where
  | ident : StdRooted (.Ident "std")
  | selector (x : Node) (sel : String) : StdRooted x → StdRooted (.SelectorExpr x sel)
  | call (fn : Node) (args : List Node) : StdRooted fn → StdRooted (.CallExpr fn args)

/-- The spec's condition of idempotence: no new name is also a mapping key. -/
def NoValueIsKey (m : Mapping) : Prop :=
  ∀ k v, m.lookup k = some v → m.lookup v = none

mutual
/-- The expression fragment of the spec: identifiers, member accesses and calls
whose arguments are all in the fragment. -/
def inFragment : Node → Bool
  | .Ident _ => true
  | .SelectorExpr x _ => inFragment x
  | .CallExpr fn args => inFragment fn && inFragmentList args
  | _ => false
/-- Every member of the list is in the fragment. -/
def inFragmentList : List Node → Bool
  | [] => true
  | n :: ns => inFragment n && inFragmentList ns
end

/-- A node of static type `*ast.BlockStmt`: a block statement or the nil
pointer. -/
def isBlockStmt : Node → Bool
  | .BlockStmt _ => true
  | .BlockStmtNil => true
  | _ => false

/-- The body of a function declaration is a `*ast.BlockStmt`; true of every
node that is no function declaration. -/
def declBodyIsBlock : Node → Bool
  | .FuncDecl _ _ _ body => isBlockStmt body
  | _ => true

/-- The static type of the field `Body` of `ast.FuncDecl`, which the one type
`Node` does not express: the body of each function declaration in the list is
a `*ast.BlockStmt`. -/
def BodiesAreBlocks (decls : List Node) : Prop :=
  ∀ d ∈ decls, declBodyIsBlock d = true

instance (decls : List Node) : Decidable (BodiesAreBlocks decls) :=
  inferInstanceAs (Decidable (∀ d ∈ decls, declBodyIsBlock d = true))

/-! ## Induction over trees -/

/-- Structural induction on nodes; the hypothesis for a list of children is
that the property holds of each member. -/
theorem Node.induct {P : Node → Prop}
    (hnil : P .nil)
    (hFile : ∀ name decls, (∀ d ∈ decls, P d) → P (.File name decls))
    (hGenDecl : ∀ tok specs, (∀ d ∈ specs, P d) → P (.GenDecl tok specs))
    (hFuncDecl : ∀ recv name typ body, P recv → P typ → P body →
      P (.FuncDecl recv name typ body))
    (hImportSpec : ∀ path, P (.ImportSpec path))
    (hBlockStmt : ∀ list, (∀ d ∈ list, P d) → P (.BlockStmt list))
    (hBlockStmtNil : P .BlockStmtNil)
    (hExprStmt : ∀ x, P x → P (.ExprStmt x))
    (hIdent : ∀ name, P (.Ident name))
    (hBasicLit : ∀ value, P (.BasicLit value))
    (hCallExpr : ∀ fn args, P fn → (∀ d ∈ args, P d) → P (.CallExpr fn args))
    (hSelectorExpr : ∀ x sel, P x → P (.SelectorExpr x sel))
    (hParenExpr : ∀ x, P x → P (.ParenExpr x))
    (hIndexExpr : ∀ x index, P x → P index → P (.IndexExpr x index))
    (hOther : ∀ kind text children, (∀ d ∈ children, P d) → P (.Other kind text children))
    (n : Node) : P n :=
  @Node.rec P (fun l => ∀ d ∈ l, P d)
    hnil
    (fun name decls ih => hFile name decls ih)
    (fun tok specs ih => hGenDecl tok specs ih)
    (fun recv name typ body ih1 ih2 ih3 => hFuncDecl recv name typ body ih1 ih2 ih3)
    hImportSpec
    (fun list ih => hBlockStmt list ih)
    hBlockStmtNil
    (fun x ih => hExprStmt x ih)
    hIdent
    hBasicLit
    (fun fn args ih1 ih2 => hCallExpr fn args ih1 ih2)
    (fun x sel ih => hSelectorExpr x sel ih)
    (fun x ih => hParenExpr x ih)
    (fun x index ih1 ih2 => hIndexExpr x index ih1 ih2)
    (fun kind text children ih => hOther kind text children ih)
    (fun d hd => absurd hd (List.not_mem_nil d))
    (fun head tail ih1 ih2 d hd => by
      rcases List.mem_cons.1 hd with h | h
      · exact h ▸ ih1
      · exact ih2 d h)
    n

/-- The walk over a list of children is the walk of each child. -/
theorem InspectList_eq_map (m : Mapping) (l : List Node) :
    InspectList m l = l.map (Inspect m) := by
  induction l with
  | nil => simp [InspectList]
  | cons n ns ih => simp [InspectList, ih]

/-- The walk is pre-order: `Transform` runs on the node, returns true, and the
children of the node are then walked. -/
theorem Inspect_preorder (m : Mapping) (n : Node) :
    (Transform m n).2 = true ∧
    Inspect m n = (Transform m n).1.mapChildren (Inspect m) := by
  cases n <;> simp [Inspect, Transform, Node.mapChildren, InspectList_eq_map]

/-- The walk does not change whether a chain is rooted in `std`. -/
theorem isStdChain_Inspect (m : Mapping) (n : Node) :
    isStdChain (Inspect m n) = isStdChain n := by
  induction n using Node.induct <;> simp_all [Inspect, isStdChain]

/-- A child of a node is walked as a tree of its own; the only child the walk
of the parent changes otherwise is the member identifier of a selector. -/
theorem child_Inspect (m : Mapping) (t : Node) (i : Nat) (c : Node)
    (h : t.children[i]? = some c) :
    (Inspect m t).children[i]? = some (Inspect m c) ∨
      ∃ s, c = .Ident s := by
  cases t with
  | SelectorExpr x sel =>
    match i with
    | 0 => left; simp_all [Node.children, Inspect]
    | 1 => right; exact ⟨sel, by simp_all [Node.children]⟩
    | j + 2 => simp [Node.children] at h
  | FuncDecl recv name typ body =>
    left
    match i with
    | 0 => simp_all [Node.children, Inspect]
    | 1 => simp_all [Node.children, Inspect]
    | 2 => simp_all [Node.children, Inspect]
    | j + 3 => simp [Node.children] at h
  | IndexExpr x index =>
    left
    match i with
    | 0 => simp_all [Node.children, Inspect]
    | 1 => simp_all [Node.children, Inspect]
    | j + 2 => simp [Node.children] at h
  | CallExpr fn args =>
    left
    match i with
    | 0 => simp_all [Node.children, Inspect]
    | j + 1 =>
      simp only [Node.children, List.getElem?_cons_succ] at h
      simp [Node.children, Inspect, InspectList_eq_map, h]
  | ExprStmt x =>
    left
    match i with
    | 0 => simp_all [Node.children, Inspect]
    | j + 1 => simp [Node.children] at h
  | ParenExpr x =>
    left
    match i with
    | 0 => simp_all [Node.children, Inspect]
    | j + 1 => simp [Node.children] at h
  | File name decls =>
    left
    simp only [Node.children] at h
    simp [Node.children, Inspect, InspectList_eq_map, h]
  | GenDecl tok specs =>
    left
    simp only [Node.children] at h
    simp [Node.children, Inspect, InspectList_eq_map, h]
  | BlockStmt list =>
    left
    simp only [Node.children] at h
    simp [Node.children, Inspect, InspectList_eq_map, h]
  | Other kind text children =>
    left
    simp only [Node.children] at h
    simp [Node.children, Inspect, InspectList_eq_map, h]
  | nil => simp [Node.children] at h
  | ImportSpec path => simp [Node.children] at h
  | BlockStmtNil => simp [Node.children] at h
  | Ident name => simp [Node.children] at h
  | BasicLit value => simp [Node.children] at h

/-- No selector lies at or below an identifier. -/
theorem nodeAt_Ident (s : String) (p : List Nat) (x : Node) (k : String) :
    nodeAt (.Ident s) p ≠ some (.SelectorExpr x k) := by
  cases p with
  | nil => simp [nodeAt]
  | cons i q => simp [nodeAt, Node.children]

/-- A selector found in the tree at a position is found at the same position
after the walk, with its receiver walked and its member name as `Transform`
sets it from the receiver and name of before the walk. -/
theorem nodeAt_Inspect (m : Mapping) (p : List Nat) :
    ∀ (t x : Node) (k : String), nodeAt t p = some (.SelectorExpr x k) →
      nodeAt (Inspect m t) p = some (.SelectorExpr (Inspect m x) (transformSel m x k)) := by
  induction p with
  | nil =>
    intro t x k h
    simp only [nodeAt, Option.some.injEq] at h
    subst h
    simp [nodeAt, Inspect]
  | cons i q ih =>
    intro t x k h
    simp only [nodeAt] at h
    cases hc : t.children[i]? with
    | none => simp [hc] at h
    | some c =>
      simp only [hc] at h
      rcases child_Inspect m t i c hc with h1 | ⟨s, h1⟩
      · simp only [nodeAt, h1]
        exact ih c x k h
      · subst h1
        exact absurd h (nodeAt_Ident s q x k)

/-- The member name `Transform` sets is the mapped name for a key under a
receiver rooted in `std`, and the old name when the name is no key. -/
theorem transformSel_spec (m : Mapping) (x : Node) (k : String) :
    (isStdChain x = true → ∀ v, m.lookup k = some v → transformSel m x k = v) ∧
    (m.lookup k = none → transformSel m x k = k) := by
  constructor
  · intro hx v hv
    simp [transformSel, hx, hv]
  · intro hk
    simp [transformSel, hk]

/-- A second run of `Transform` on a renamed selector finds no key. -/
theorem transformSel_idem (m : Mapping) (h : NoValueIsKey m) (x : Node) (k : String) :
    transformSel m (Inspect m x) (transformSel m x k) = transformSel m x k := by
  unfold transformSel
  rw [isStdChain_Inspect]
  cases hx : isStdChain x with
  | false => simp
  | true =>
    cases hk : m.lookup k with
    | none => simp [hk]
    | some v => simp [h k v hk]

/-- An entry found by `lookup` is an entry of the list. -/
theorem lookup_mem (m : Mapping) (k v : String) (h : m.lookup k = some v) :
    (k, v) ∈ m := by
  induction m with
  | nil => simp [Mapping.lookup, List.lookup] at h
  | cons e es ih =>
    obtain ⟨a, b⟩ := e
    simp only [Mapping.lookup, List.lookup] at h
    cases hka : k == a with
    | true =>
      simp only [hka, Option.some.injEq] at h
      have hk : k = a := by simpa using hka
      simp [hk, h]
    | false =>
      simp only [hka] at h
      exact List.mem_cons_of_mem _ (ih h)

/-- The condition of idempotence, checked entry by entry. -/
theorem NoValueIsKey_of_entries (m : Mapping)
    (h : ∀ e ∈ m, m.lookup e.2 = none) : NoValueIsKey m :=
  fun k v hk => h (k, v) (lookup_mem m k v hk)

/-- C1: after the rename walk every member-access node of the tree sits at its
old position with its receiver walked; when its receiver is rooted in `std`
and its original member name `k` is a mapping key, the member name is exactly
`mapping[k]` (looked up once, also when `mapping[k]` is itself a key); when the
original name is not a key, the name is kept.  On the body of `TestProcessDir`
the walk yields the expected file. -/
theorem rename_walk_renames_std_members :
    (∀ (m : Mapping) (t : Node) (p : List Nat) (x : Node) (k : String),
      nodeAt t p = some (.SelectorExpr x k) →
      ∃ k2, nodeAt (Inspect m t) p = some (.SelectorExpr (Inspect m x) k2) ∧
        (isStdChain x = true → ∀ v, m.lookup k = some v → k2 = v) ∧
        (m.lookup k = none → k2 = k)) ∧
    Inspect sampleMapping sampleFile = expectedFile := by
  refine ⟨?_, rfl⟩
  intro m t p x k h
  exact ⟨transformSel m x k, nodeAt_Inspect m p t x k h, transformSel_spec m x k⟩

/-- Witness of C1: the selector `std.PrevRealm().Addr` of the sample file, and a
selector `std.A` under a mapping whose value `B` is itself a key. -/
theorem rename_walk_renames_std_members_witness :
    nodeAt sampleFile [1, 2, 2, 0, 0] = some (.SelectorExpr (stdCall "PrevRealm") "Addr") ∧
    (∃ k2, nodeAt (Inspect sampleMapping sampleFile) [1, 2, 2, 0, 0] =
        some (.SelectorExpr (Inspect sampleMapping (stdCall "PrevRealm")) k2) ∧
      k2 = "Address") ∧
    (∃ k2, nodeAt (Inspect [("A", "B"), ("B", "C")] (.SelectorExpr (.Ident "std") "A")) [] =
        some (.SelectorExpr (Inspect [("A", "B"), ("B", "C")] (.Ident "std")) k2) ∧
      k2 = "B") := by
  refine ⟨rfl, ?_, ?_⟩
  · obtain ⟨k2, h1, h2, _⟩ := rename_walk_renames_std_members.1 sampleMapping sampleFile
      [1, 2, 2, 0, 0] (stdCall "PrevRealm") "Addr" rfl
    exact ⟨k2, h1, h2 rfl "Address" rfl⟩
  · obtain ⟨k2, h1, h2, _⟩ := rename_walk_renames_std_members.1 [("A", "B"), ("B", "C")]
      (.SelectorExpr (.Ident "std") "A") [] (.Ident "std") "A" rfl
    exact ⟨k2, h1, h2 rfl "B" rfl⟩

/-- C2: `isStdChain e` is true if and only if `e` is an identifier named exactly
"std" wrapped any number of times as receiver of a member access or as called
function of a call; so it is true for `std.PrevRealm()`, false for an
identifier with another name, and false for every other expression kind. -/
theorem isStdChain_iff_rooted :
    (∀ e : Node, isStdChain e = true ↔ StdRooted e) ∧
    isStdChain (stdCall "PrevRealm") = true ∧
    (∀ name : String, name ≠ "std" → isStdChain (.Ident name) = false) ∧
    (∀ e : Node, e.kind ≠ .Ident → e.kind ≠ .SelectorExpr → e.kind ≠ .CallExpr →
      isStdChain e = false) := by
  refine ⟨?_, rfl, ?_, ?_⟩
  · intro e
    constructor
    · intro h
      induction e using Node.induct with
      | hIdent name =>
        have hn : name = "std" := by simpa [isStdChain] using h
        subst hn
        exact StdRooted.ident
      | hSelectorExpr x sel ih => exact StdRooted.selector x sel (ih (by simpa [isStdChain] using h))
      | hCallExpr fn args ih _ => exact StdRooted.call fn args (ih (by simpa [isStdChain] using h))
      | _ => simp [isStdChain] at h
    · intro h
      induction h with
      | ident => rfl
      | selector x sel _ ih => simpa [isStdChain] using ih
      | call fn args _ ih => simpa [isStdChain] using ih
  · intro name hname
    simp [isStdChain, hname]
  · intro e h1 h2 h3
    cases e <;> simp_all [isStdChain, Node.kind]

/-- Witness of C2: the receiver of `std.PrevRealm().Addr()` is rooted, an
identifier `custom` is not, and `(std)`, `std[0]`, a literal and nil are not. -/
theorem isStdChain_iff_rooted_witness :
    StdRooted (stdCall "PrevRealm") ∧
    isStdChain (.Ident "custom") = false ∧
    isStdChain (.ParenExpr (.Ident "std")) = false ∧
    isStdChain (.IndexExpr (.Ident "std") (.BasicLit "0")) = false ∧
    isStdChain (.BasicLit "std") = false ∧
    isStdChain .nil = false :=
  ⟨(isStdChain_iff_rooted.1 (stdCall "PrevRealm")).1 rfl,
   isStdChain_iff_rooted.2.2.1 "custom" (by decide),
   isStdChain_iff_rooted.2.2.2 _ (by decide) (by decide) (by decide),
   isStdChain_iff_rooted.2.2.2 _ (by decide) (by decide) (by decide),
   isStdChain_iff_rooted.2.2.2 _ (by decide) (by decide) (by decide),
   isStdChain_iff_rooted.2.2.2 _ (by decide) (by decide) (by decide)⟩

/-- C3: for a member-access node whose receiver is not rooted in `std`, and for
every mapping, `Transform` leaves the node (so its member name) unchanged, also
when the name is a mapping key. -/
theorem Transform_keeps_non_std_member (m : Mapping) (x : Node) (sel : String)
    (h : isStdChain x = false) :
    Transform m (.SelectorExpr x sel) = (.SelectorExpr x sel, true) := by
  simp [Transform, transformSel, h]

/-- Witness of C3: `custom.Addr` stays `custom.Addr` although `Addr` is a key. -/
theorem Transform_keeps_non_std_member_witness :
    sampleMapping.lookup "Addr" = some "Address" ∧
    isStdChain (.Ident "custom") = false ∧
    Transform sampleMapping customAddr = (customAddr, true) :=
  ⟨by decide, by decide,
   Transform_keeps_non_std_member sampleMapping (.Ident "custom") "Addr" (by decide)⟩

/-- C4: one `Transform` call on a node that is not a member access leaves the
node identical, for every mapping; on a member access it leaves the receiver
subtree identical and changes at most the member name. -/
theorem Transform_frame (m : Mapping) (n : Node) :
    ((∀ x sel, n ≠ .SelectorExpr x sel) → (Transform m n).1 = n) ∧
    (∀ x sel, n = .SelectorExpr x sel →
      ∃ sel2, (Transform m n).1 = .SelectorExpr x sel2) := by
  constructor
  · intro h
    cases n <;> simp_all [Transform]
  · intro x sel h
    subst h
    exact ⟨transformSel m x sel, rfl⟩

/-- Witness of C4: the bare call `Addr()`, an identifier, a declaration,
an import spec, a literal and nil are left as they are, and `std.Addr` keeps
its receiver. -/
theorem Transform_frame_witness :
    (Transform sampleMapping (.CallExpr (.Ident "Addr") [])).1 = .CallExpr (.Ident "Addr") [] ∧
    (Transform sampleMapping (.Ident "Addr")).1 = .Ident "Addr" ∧
    (Transform sampleMapping (.GenDecl .IMPORT [.ImportSpec "Addr"])).1 =
      .GenDecl .IMPORT [.ImportSpec "Addr"] ∧
    (Transform sampleMapping (.ImportSpec "Addr")).1 = .ImportSpec "Addr" ∧
    (Transform sampleMapping (.BasicLit "Addr")).1 = .BasicLit "Addr" ∧
    (Transform sampleMapping .nil).1 = .nil ∧
    (∃ sel2, (Transform sampleMapping (.SelectorExpr (.Ident "std") "Addr")).1 =
      .SelectorExpr (.Ident "std") sel2) :=
  ⟨(Transform_frame sampleMapping _).1 (fun _ _ h => by cases h),
   (Transform_frame sampleMapping _).1 (fun _ _ h => by cases h),
   (Transform_frame sampleMapping _).1 (fun _ _ h => by cases h),
   (Transform_frame sampleMapping _).1 (fun _ _ h => by cases h),
   (Transform_frame sampleMapping _).1 (fun _ _ h => by cases h),
   (Transform_frame sampleMapping _).1 (fun _ _ h => by cases h),
   (Transform_frame sampleMapping _).2 (.Ident "std") "Addr" rfl⟩

/-- C5: for every tree and every mapping in which no new name is also a key,
the rename walk run twice yields the same tree as run once. -/
theorem Inspect_idempotent (m : Mapping) (t : Node) (h : NoValueIsKey m) :
    Inspect m (Inspect m t) = Inspect m t := by
  induction t using Node.induct with
  | hSelectorExpr x sel ih => simp [Inspect, ih, transformSel_idem m h]
  | hFile name decls ih => simpa [Inspect, InspectList_eq_map] using ih
  | hGenDecl tok specs ih => simpa [Inspect, InspectList_eq_map] using ih
  | hBlockStmt list ih => simpa [Inspect, InspectList_eq_map] using ih
  | hOther kind text children ih => simpa [Inspect, InspectList_eq_map] using ih
  | hCallExpr fn args ih1 ih2 =>
    simp only [Inspect, InspectList_eq_map, ih1]
    simpa using ih2
  | _ => simp_all [Inspect]

/-- Witness of C5: the mapping of the tests on the sample file. -/
theorem Inspect_idempotent_witness :
    NoValueIsKey sampleMapping ∧
    Inspect sampleMapping (Inspect sampleMapping sampleFile) = Inspect sampleMapping sampleFile :=
  ⟨NoValueIsKey_of_entries sampleMapping (by decide),
   Inspect_idempotent sampleMapping sampleFile (NoValueIsKey_of_entries sampleMapping (by decide))⟩

/-! ## The comparator: unfolding lemmas -/

/-- The argument loop of `compareNode` is the loop of `compareSlice` with
`compareNode` as comparator. -/
theorem compareExprsFrom_eq (got : List Node) :
    ∀ (i : Nat) (want : List Node),
      compareExprsFrom i got want = compareSliceFrom compareNode i got want := by
  induction got with
  | nil => intro i want; cases want <;> simp [compareExprsFrom, compareSliceFrom]
  | cons g gs ih =>
    intro i want
    cases want with
    | nil => simp [compareExprsFrom, compareSliceFrom]
    | cons w ws => simp only [compareExprsFrom, compareSliceFrom, ih]

/-- The declaration loop of `compareNode` is the loop of `compareSlice` with the
closure of `compareDecls` as comparator. -/
theorem compareDeclsFrom_eq (got : List Node) :
    ∀ (i : Nat) (want : List Node),
      compareDeclsFrom i got want = compareSliceFrom compareDecl i got want := by
  induction got with
  | nil => intro i want; cases want <;> simp [compareDeclsFrom, compareSliceFrom]
  | cons g gs ih =>
    intro i want
    cases want with
    | nil => simp [compareDeclsFrom, compareSliceFrom]
    | cons w ws => simp only [compareDeclsFrom, compareSliceFrom, ih]

/-- The file arm of `compareNode` is `fileComparator.Compare(got, want)`. -/
theorem compareNode_File (gname : String) (gdecls : List Node) (want : Node)
    (hw : want ≠ .nil) :
    compareNode (.File gname gdecls) want =
      TypeComparator.Compare .File fileCompareFunc (.File gname gdecls) want := by
  cases want <;>
    simp_all [compareNode, TypeComparator.Compare, fileCompareFunc, Node.kind, compareDecls,
      compareSlice, compareDeclsFrom_eq]

/-- The call arm of `compareNode`, with `compareExprs` on the arguments. -/
theorem compareNode_CallExpr (gfn wfn : Node) (gargs wargs : List Node) :
    compareNode (.CallExpr gfn gargs) (.CallExpr wfn wargs) =
      match compareNode gfn wfn with
      | .error err => .error (.function err)
      | .ok _ =>
        match compareExprs gargs wargs with
        | .error err => .error (.arguments err)
        | .ok _ => .ok () := by
  simp only [compareNode, compareExprs, compareSlice, compareExprsFrom_eq]

/-- The loop of `compareSlice` succeeds on a list paired with itself when the
comparator succeeds on each member paired with itself. -/
theorem compareSliceFrom_refl {α : Type} (cmp : α → α → Result) (l : List α) :
    ∀ i : Nat, (∀ a ∈ l, cmp a a = .ok ()) → compareSliceFrom cmp i l l = .ok () := by
  induction l with
  | nil => intro i _; simp [compareSliceFrom]
  | cons a as ih =>
    intro i h
    simp only [compareSliceFrom, h a (List.mem_cons_self a as)]
    exact ih (i + 1) (fun b hb => h b (List.mem_cons_of_mem a hb))

/-- The closure of `compareSpecs` succeeds on a spec paired with itself. -/
theorem compareSpec_refl (s : Node) : compareSpec s s = .ok () := by
  cases s <;> simp [compareSpec]

/-- Both `compareNode` and the closure of `compareDecls` succeed on a node
paired with itself. -/
theorem compareNode_compareDecl_refl (n : Node) :
    compareNode n n = .ok () ∧ compareDecl n n = .ok () := by
  induction n using Node.induct with
  | hFile name decls ih =>
    refine ⟨?_, by simp [compareDecl]⟩
    simp only [compareNode, compareDeclsFrom_eq, ne_eq, not_true_eq_false, if_false]
    exact compareSliceFrom_refl compareDecl decls 0 (fun d hd => (ih d hd).2)
  | hCallExpr fn args ih1 ih2 =>
    refine ⟨?_, by simp [compareDecl]⟩
    have h := compareSliceFrom_refl compareNode args 0 (fun d hd => (ih2 d hd).1)
    simp [compareNode, compareExprsFrom_eq, ih1.1, h]
  | hSelectorExpr x sel ih =>
    refine ⟨?_, by simp [compareDecl]⟩
    simp [compareNode, ih.1, compareIdent]
  | hFuncDecl recv name typ body _ _ ih =>
    refine ⟨by simp [compareNode], ?_⟩
    simp [compareDecl, ih.1]
  | hGenDecl tok specs ih =>
    refine ⟨by simp [compareNode], ?_⟩
    simp only [compareDecl, compareSpecs, compareSlice, ne_eq, not_true_eq_false, if_false]
    exact compareSliceFrom_refl compareSpec specs 0 (fun d _ => compareSpec_refl d)
  | _ => simp [compareNode, compareDecl, compareIdent]

/-- C6: evaluation of the code on the paths of
`TestGnoFileProcessor_ShouldProcess`.  The claim and the test expect true for
an extension that only begins with `.gno`; the code tests the extension for
the suffix `.gno` and returns false on `test.gnoA`, `test.gnoXXXXXX` and
`/path/to/test.gnoA`. -/
theorem ShouldProcess_on_test_paths :
    ShouldProcess "test.gno" = true ∧
    ShouldProcess "test.gnoA" = false ∧
    ShouldProcess "test.gnoXXXXXX" = false ∧
    ShouldProcess "test.go" = false ∧
    ShouldProcess "testfile" = false ∧
    ShouldProcess "/path/to/test.gno" = true ∧
    ShouldProcess "/path/to/test.gnoA" = false := by
  decide

/-- C7: evaluation of the code on the two files of `TestProcessDir_Nested`,
which differ only in the body of `main` (`std.Addr()` against
`std.Address()`).  The claim says they do not compare as equal; `compareAST`,
`compareNode` on the files and `compareDecls` all succeed, since the body is a
block statement and falls in the default arm of `compareNode`.  A body with
no statement compares as equal too.  The two calls themselves, compared
directly, do differ. -/
theorem compareAST_succeeds_on_different_bodies :
    compareAST nestedParseFile nestedFileText nestedExpectedText = .ok () ∧
    compareNode nestedFile nestedExpected = .ok () ∧
    compareDecls nestedFile.children nestedExpected.children = .ok () ∧
    compareNode nestedFile (mainFile "\"std\"" []) = .ok () ∧
    compareNode (stdCall "Addr") (stdCall "Address") =
      .error (.function (.selectorSel (.identifier "Addr" "Address"))) := by
  decide

/-- C8: the comparator is reflexive: `compareNode` succeeds on every node paired
with itself, `compareDecls` on every list of declarations paired with itself,
and `compareAST` on every text that parses, paired with itself. -/
theorem compare_reflexive :
    (∀ n : Node, compareNode n n = .ok ()) ∧
    (∀ l : List Node, compareDecls l l = .ok ()) ∧
    (∀ (ParseFile : String → Except String Node) (src name : String) (decls : List Node),
      ParseFile src = .ok (.File name decls) → compareAST ParseFile src src = .ok ()) := by
  have hd : ∀ l : List Node, compareDecls l l = .ok () := by
    intro l
    simp only [compareDecls, compareSlice, ne_eq, not_true_eq_false, if_false]
    exact compareSliceFrom_refl compareDecl l 0 (fun d _ => (compareNode_compareDecl_refl d).2)
  refine ⟨fun n => (compareNode_compareDecl_refl n).1, hd, ?_⟩
  intro ParseFile src name decls h
  simp [compareAST, h, TypeComparator.Compare, Node.kind, fileCompareFunc, hd]

/-- Witness of C8: the text of `TestProcessDir_Nested` against itself. -/
theorem compare_reflexive_witness :
    nestedParseFile nestedFileText = .ok nestedFile ∧
    compareAST nestedParseFile nestedFileText nestedFileText = .ok () :=
  ⟨rfl, compare_reflexive.2.2 nestedParseFile nestedFileText "main" nestedFile.children rfl⟩

/-- C9, counterexample: a literal as `got` and an identifier as `want` are two
non-nil nodes of different kinds, and `compareNode` succeeds on them. -/
theorem compareNode_literal_against_identifier :
    Node.BasicLit "1" ≠ Node.nil ∧ Node.Ident "x" ≠ Node.nil ∧
    (Node.BasicLit "1").kind ≠ (Node.Ident "x").kind ∧
    compareNode (.BasicLit "1") (.Ident "x") = .ok () :=
  ⟨by simp, by simp, by decide, by decide⟩

/-- C9, amended: when `got` is a file, an identifier, a call or a member access
(the kinds `compareNode` has a rule for) and `want` is a non-nil node of a
different kind, `compareNode` fails with the type-mismatch error naming both
kinds. -/
theorem compareNode_type_mismatch (got want : Node) (hw : want ≠ .nil)
    (hk : got.kind = .File ∨ got.kind = .Ident ∨ got.kind = .CallExpr ∨
      got.kind = .SelectorExpr)
    (hne : got.kind ≠ want.kind) :
    compareNode got want = .error (.typeMismatch got.kind want.kind) := by
  cases got <;> simp [Node.kind] at hk <;>
    cases want <;> simp_all [compareNode, Node.kind]

/-- Witness of C9: an identifier as `got` against a literal fails with the type
mismatch, and so do a selector against a call and a file against an
identifier. -/
theorem compareNode_type_mismatch_witness :
    compareNode (.Ident "x") (.BasicLit "1") = .error (.typeMismatch .Ident .BasicLit) ∧
    compareNode (.SelectorExpr (.Ident "std") "Addr") (stdCall "Addr") =
      .error (.typeMismatch .SelectorExpr .CallExpr) ∧
    compareNode nestedFile (.Ident "main") = .error (.typeMismatch .File .Ident) :=
  ⟨compareNode_type_mismatch (.Ident "x") (.BasicLit "1") (by simp) (by decide) (by decide),
   compareNode_type_mismatch (.SelectorExpr (.Ident "std") "Addr") (stdCall "Addr")
      (by simp [stdCall]) (by decide) (by decide),
   compareNode_type_mismatch nestedFile (.Ident "main") (by simp) (by decide) (by decide)⟩

/-- C10, counterexample: two files with 0 and 1 top-level declarations and
different package names: the failure reported is the package-name mismatch,
not a length mismatch. -/
theorem compareNode_File_lengths_and_names_differ :
    ([] : List Node).length ≠ [Node.GenDecl .IMPORT []].length ∧
    compareNode (.File "a" []) (.File "b" [.GenDecl .IMPORT []]) =
      .error (.packageName "a" "b") := by
  decide

/-- C10, amended: for two file nodes with the same package name whose numbers of
top-level declarations differ, `compareNode` fails with the length mismatch
carrying both lengths, and `compareAST` on texts parsed to them fails with that
error wrapped; when the package names differ too, the failure is the
package-name mismatch. -/
theorem compareNode_File_length_mismatch (gname wname : String) (gdecls wdecls : List Node)
    (h : gdecls.length ≠ wdecls.length) :
    (gname = wname →
      compareNode (.File gname gdecls) (.File wname wdecls) =
        .error (.lengthMismatch gdecls.length wdecls.length) ∧
      ∀ (ParseFile : String → Except String Node) (got want : String),
        ParseFile got = .ok (.File gname gdecls) →
        ParseFile want = .ok (.File wname wdecls) →
        compareAST ParseFile got want =
          .error (.astComparison (.lengthMismatch gdecls.length wdecls.length))) ∧
    (gname ≠ wname →
      compareNode (.File gname gdecls) (.File wname wdecls) =
        .error (.packageName gname wname)) := by
  constructor
  · intro hn
    subst hn
    refine ⟨by simp [compareNode, h], ?_⟩
    intro ParseFile got want hgot hwant
    simp [compareAST, hgot, hwant, TypeComparator.Compare, Node.kind, fileCompareFunc,
      compareDecls, compareSlice, h]
  · intro hn
    simp [compareNode, hn]

/-- Witness of C10: the file of `TestProcessDir_Nested` against the same file
without its function declaration. -/
theorem compareNode_File_length_mismatch_witness :
    compareNode nestedFile (.File "main" [.GenDecl .IMPORT [.ImportSpec "\"std\""]]) =
      .error (.lengthMismatch 2 1) :=
  ((compareNode_File_length_mismatch "main" "main" nestedFile.children
    [.GenDecl .IMPORT [.ImportSpec "\"std\""]] (by decide)).1 rfl).1

/-! ## Nil handling, sequences and the expression fragment -/

/-- C11: `compareNode(nil, nil)` succeeds; for every non-nil node `x`, of whatever
kind, `compareNode(nil, x)` fails and `compareNode(x, nil)` fails, with the
error "one node is nil, other is not". -/
theorem compareNode_nil_handling :
    compareNode .nil .nil = .ok () ∧
    ∀ x : Node, x ≠ .nil →
      compareNode .nil x = .error .nilMismatch ∧
      compareNode x .nil = .error .nilMismatch := by
  refine ⟨rfl, ?_⟩
  intro x hx
  cases x <;> simp_all [compareNode]

/-- Witness of C11: a literal and a function body that is the nil pointer, two
kinds that otherwise match automatically. -/
theorem compareNode_nil_handling_witness :
    (compareNode .nil (.BasicLit "1") = .error .nilMismatch ∧
      compareNode (.BasicLit "1") .nil = .error .nilMismatch) ∧
    (compareNode .nil .BlockStmtNil = .error .nilMismatch ∧
      compareNode .BlockStmtNil .nil = .error .nilMismatch) :=
  ⟨compareNode_nil_handling.2 (.BasicLit "1") (by simp),
   compareNode_nil_handling.2 .BlockStmtNil (by simp)⟩

/-- The loop of `compareSlice` succeeds exactly when the comparator succeeds on
every positional pair. -/
theorem compareSliceFrom_ok_iff {α : Type} (cmp : α → α → Result) (got : List α) :
    ∀ (k : Nat) (want : List α),
      compareSliceFrom cmp k got want = .ok () ↔
        ∀ (j : Nat) (g w : α), got[j]? = some g → want[j]? = some w → cmp g w = .ok () := by
  induction got with
  | nil => intro k want; simp [compareSliceFrom]
  | cons a as ih =>
    intro k want
    cases want with
    | nil => simp [compareSliceFrom]
    | cons b bs =>
      simp only [compareSliceFrom]
      cases h : cmp a b with
      | error e =>
        constructor
        · intro h2; cases h2
        · intro hall
          have h0 := hall 0 a b (by simp) (by simp)
          rw [h] at h0
          cases h0
      | ok u =>
        simp only [ih (k + 1) bs]
        constructor
        · intro hall j g w hg hw
          cases j with
          | zero =>
            simp only [List.getElem?_cons_zero, Option.some.injEq] at hg hw
            subst hg; subst hw; exact h
          | succ j =>
            simp only [List.getElem?_cons_succ] at hg hw
            exact hall j g w hg hw
        · intro hall j g w hg hw
          exact hall (j + 1) g w (by simpa using hg) (by simpa using hw)

/-- The loop of `compareSlice` fails at the first pair on which the comparator
fails, with the index of that pair. -/
theorem compareSliceFrom_first_failure {α : Type} (cmp : α → α → Result) (got : List α) :
    ∀ (k : Nat) (want : List α) (i : Nat) (g w : α) (e : CmpError),
      got[i]? = some g → want[i]? = some w → cmp g w = .error e →
      (∀ j : Nat, j < i → ∀ g2 w2 : α, got[j]? = some g2 → want[j]? = some w2 →
        cmp g2 w2 = .ok ()) →
      compareSliceFrom cmp k got want = .error (.atIndex (k + i) e) := by
  induction got with
  | nil => intro k want i g w e hg; simp at hg
  | cons a as ih =>
    intro k want i g w e hg hw he hlt
    cases want with
    | nil => simp at hw
    | cons b bs =>
      cases i with
      | zero =>
        simp only [List.getElem?_cons_zero, Option.some.injEq] at hg hw
        subst hg; subst hw
        simp [compareSliceFrom, he]
      | succ i =>
        simp only [List.getElem?_cons_succ] at hg hw
        have h0 : cmp a b = .ok () := hlt 0 (Nat.succ_pos i) a b (by simp) (by simp)
        simp only [compareSliceFrom, h0]
        have := ih (k + 1) bs i g w e hg hw he
          (fun j hj g2 w2 hg2 hw2 =>
            hlt (j + 1) (Nat.succ_lt_succ hj) g2 w2 (by simpa using hg2) (by simpa using hw2))
        rw [this]
        congr 2
        omega

/-- The loop of `compareSlice` never reports a length mismatch of its own. -/
theorem compareSliceFrom_not_lengthMismatch {α : Type} (cmp : α → α → Result) (got : List α) :
    ∀ (k : Nat) (want : List α) (a b : Nat),
      compareSliceFrom cmp k got want ≠ .error (.lengthMismatch a b) := by
  induction got with
  | nil => intro k want a b; simp [compareSliceFrom]
  | cons x xs ih =>
    intro k want a b
    cases want with
    | nil => simp [compareSliceFrom]
    | cons y ys =>
      simp only [compareSliceFrom]
      cases h : cmp x y with
      | error e => simp
      | ok u => exact ih (k + 1) ys a b

/-- C12: `compareSlice` fails with a length mismatch if and only if the lengths
differ (and then it carries both lengths); with equal lengths it succeeds if and
only if the comparator succeeds on every positional pair; and when `i` is the
smallest index at which the comparator fails, it fails with that index and that
error, whatever the comparator does on the pairs after `i`. -/
theorem compareSlice_spec {α : Type} (got want : List α) (cmp : α → α → Result) :
    ((∃ a b, compareSlice got want cmp = .error (.lengthMismatch a b)) ↔
      got.length ≠ want.length) ∧
    (got.length ≠ want.length →
      compareSlice got want cmp = .error (.lengthMismatch got.length want.length)) ∧
    (got.length = want.length →
      (compareSlice got want cmp = .ok () ↔
        ∀ (j : Nat) (g w : α), got[j]? = some g → want[j]? = some w → cmp g w = .ok ()) ∧
      ∀ (i : Nat) (g w : α) (e : CmpError),
        got[i]? = some g → want[i]? = some w → cmp g w = .error e →
        (∀ j : Nat, j < i → ∀ g2 w2 : α, got[j]? = some g2 → want[j]? = some w2 →
          cmp g2 w2 = .ok ()) →
        compareSlice got want cmp = .error (.atIndex i e) ∧
        ∀ cmp2 : α → α → Result,
          (∀ j : Nat, j ≤ i → ∀ g2 w2 : α, got[j]? = some g2 → want[j]? = some w2 →
            cmp2 g2 w2 = cmp g2 w2) →
          compareSlice got want cmp2 = .error (.atIndex i e)) := by
  refine ⟨?_, ?_, ?_⟩
  · constructor
    · rintro ⟨a, b, h⟩ hlen
      simp only [compareSlice, hlen, ne_eq, not_true_eq_false, if_false] at h
      exact compareSliceFrom_not_lengthMismatch cmp got 0 want a b h
    · intro hlen
      exact ⟨got.length, want.length, by simp [compareSlice, hlen]⟩
  · intro hlen
    simp [compareSlice, hlen]
  · intro hlen
    refine ⟨?_, ?_⟩
    · simp only [compareSlice, hlen, ne_eq, not_true_eq_false, if_false]
      exact compareSliceFrom_ok_iff cmp got 0 want
    · intro i g w e hg hw he hlt
      have key : ∀ c : α → α → Result, c g w = .error e →
          (∀ j : Nat, j < i → ∀ g2 w2 : α, got[j]? = some g2 → want[j]? = some w2 →
            c g2 w2 = .ok ()) →
          compareSlice got want c = .error (.atIndex i e) := by
        intro c hce hclt
        simp only [compareSlice, hlen, ne_eq, not_true_eq_false, if_false]
        have := compareSliceFrom_first_failure c got 0 want i g w e hg hw hce hclt
        simpa using this
      refine ⟨key cmp he hlt, ?_⟩
      intro cmp2 hagree
      apply key cmp2
      · rw [hagree i (Nat.le_refl i) g w hg hw]; exact he
      · intro j hj g2 w2 hg2 hw2
        rw [hagree j (Nat.le_of_lt hj) g2 w2 hg2 hw2]
        exact hlt j hj g2 w2 hg2 hw2

/-- Witness of C12: the arguments `(a, b, c)` against `(a, x, y)` fail at index
1, also under a comparator that differs from `compareNode` on the last pair;
`(a)` against `(a, b)` is a length mismatch. -/
theorem compareSlice_spec_witness :
    compareSlice [Node.Ident "a", .Ident "b", .Ident "c"] [.Ident "a", .Ident "x", .Ident "y"]
        compareNode = .error (.atIndex 1 (.identifier "b" "x")) ∧
    compareSlice [Node.Ident "a", .Ident "b", .Ident "c"] [.Ident "a", .Ident "x", .Ident "y"]
        (fun g w => if g.kind = .Ident ∧ w.kind = .Ident ∧ compareNode g (.Ident "c") = .ok ()
          then .error .nilMismatch else compareNode g w) =
      .error (.atIndex 1 (.identifier "b" "x")) ∧
    compareSlice [Node.Ident "a"] [Node.Ident "a", .Ident "b"] compareNode =
      .error (.lengthMismatch 1 2) := by
  have h := ((compareSlice_spec [Node.Ident "a", .Ident "b", .Ident "c"]
    [.Ident "a", .Ident "x", .Ident "y"] compareNode).2.2 rfl).2 1 (.Ident "b") (.Ident "x")
    (.identifier "b" "x") rfl rfl (by decide)
    (by
      intro j hj g2 w2 hg hw
      have hj0 : j = 0 := by omega
      subst hj0
      simp only [List.getElem?_cons_zero, Option.some.injEq] at hg hw
      subst hg; subst hw
      decide)
  refine ⟨h.1, h.2 _ ?_, (compareSlice_spec _ _ compareNode).2.1 (by decide)⟩
  intro j hj g2 w2 hg hw
  match j, hj with
  | 0, _ =>
    simp only [List.getElem?_cons_zero, Option.some.injEq] at hg hw
    subst hg; subst hw
    decide
  | 1, _ =>
    simp only [List.getElem?_cons_succ, List.getElem?_cons_zero, Option.some.injEq] at hg hw
    subst hg; subst hw
    decide

/-- A list is in the fragment when each member is. -/
theorem inFragmentList_iff (l : List Node) :
    inFragmentList l = true ↔ ∀ n ∈ l, inFragment n = true := by
  induction l with
  | nil => simp [inFragmentList]
  | cons n ns ih => simp [inFragmentList, ih]

/-- With a comparator that succeeds exactly on equal members, the loop of
`compareSlice` succeeds exactly on equal lists of the same length. -/
theorem compareSliceFrom_ok_iff_eq {α : Type} (cmp : α → α → Result) (gs : List α)
    (hcmp : ∀ g ∈ gs, ∀ w, cmp g w = .ok () ↔ g = w) :
    ∀ (k : Nat) (ws : List α), gs.length = ws.length →
      (compareSliceFrom cmp k gs ws = .ok () ↔ gs = ws) := by
  induction gs with
  | nil =>
    intro k ws hlen
    cases ws with
    | nil => simp [compareSliceFrom]
    | cons w ws => simp at hlen
  | cons g gs ih =>
    intro k ws hlen
    cases ws with
    | nil => simp at hlen
    | cons w ws =>
      have hg := hcmp g (List.mem_cons_self g gs) w
      have hrec := ih (fun x hx => hcmp x (List.mem_cons_of_mem g hx)) (k + 1) ws
        (by simpa using hlen)
      simp only [compareSliceFrom, List.cons.injEq]
      cases h : cmp g w with
      | error e =>
        constructor
        · intro h2; cases h2
        · intro h2
          rw [hg.2 h2.1] at h
          cases h
      | ok u =>
        have hgw : g = w := hg.1 h
        simp [hrec, hgw]

/-- On a `got` of the fragment, `compareNode` succeeds exactly on an equal
`want`. -/
theorem compareNode_ok_iff_eq (a : Node) :
    inFragment a = true → ∀ b : Node, (compareNode a b = .ok () ↔ a = b) := by
  induction a using Node.induct with
  | hIdent name =>
    intro _ b
    cases b <;> simp [compareNode, compareIdent]
  | hSelectorExpr x sel ih =>
    intro ha b
    have hx := ih (by simpa [inFragment] using ha)
    cases b with
    | SelectorExpr wx wsel =>
      simp only [compareNode, Node.SelectorExpr.injEq]
      cases h : compareNode x wx with
      | error e =>
        constructor
        · intro h2; cases h2
        · intro h2
          rw [(hx wx).2 h2.1] at h
          cases h
      | ok u =>
        have hxe : x = wx := (hx wx).1 h
        by_cases hs : sel = wsel <;> simp [compareIdent, hxe, hs]
    | _ => simp [compareNode]
  | hCallExpr fn args ih1 ih2 =>
    intro ha b
    simp only [inFragment, Bool.and_eq_true, inFragmentList_iff] at ha
    have hfn := ih1 ha.1
    cases b with
    | CallExpr wfn wargs =>
      rw [compareNode_CallExpr]
      simp only [Node.CallExpr.injEq]
      cases h : compareNode fn wfn with
      | error e =>
        constructor
        · intro h2; cases h2
        · intro h2
          rw [(hfn wfn).2 h2.1] at h
          cases h
      | ok u =>
        have hfe : fn = wfn := (hfn wfn).1 h
        by_cases hlen : args.length = wargs.length
        · have hargs := compareSliceFrom_ok_iff_eq compareNode args
            (fun g hg w => ih2 g hg (ha.2 g hg) w) 0 wargs hlen
          simp only [compareExprs, compareSlice, hlen, ne_eq, not_true_eq_false, if_false]
          cases h3 : compareSliceFrom compareNode 0 args wargs with
          | error e =>
            constructor
            · intro h2; cases h2
            · intro h2
              rw [hargs.2 h2.2] at h3
              cases h3
          | ok u2 =>
            have := hargs.1 h3
            simp [hfe, this]
        · have hne : args ≠ wargs := fun h2 => hlen (by rw [h2])
          simp [compareExprs, compareSlice, hlen, hne]
    | _ => simp [compareNode]
  | _ => intro ha; simp [inFragment] at ha

/-- C13: on a `got` built only from identifiers, member accesses and calls (all
arguments in the same fragment) `compareNode` is exact: it succeeds if and only
if `want` is the same expression, that is, has the same shape, the same
argument counts and equal names at every position.  This holds for every
`want`, in the fragment or not. -/
theorem compareNode_exact_on_fragment (a b : Node) (ha : inFragment a = true) :
    compareNode a b = .ok () ↔ a = b :=
  compareNode_ok_iff_eq a ha b

/-- Witness of C13: `std.Addr()` against `std.Address()` fails, `f(a)` against
`f(a, b)` fails, and `std.PrevRealm().Addr()` against itself succeeds. -/
theorem compareNode_exact_on_fragment_witness :
    compareNode (stdCall "Addr") (stdCall "Address") ≠ .ok () ∧
    compareNode (.CallExpr (.Ident "f") [.Ident "a"])
      (.CallExpr (.Ident "f") [.Ident "a", .Ident "b"]) ≠ .ok () ∧
    compareNode (.CallExpr (.SelectorExpr (stdCall "PrevRealm") "Addr") [])
      (.CallExpr (.SelectorExpr (stdCall "PrevRealm") "Addr") []) = .ok () :=
  ⟨fun h => absurd ((compareNode_exact_on_fragment _ _ (by decide)).1 h) (by simp [stdCall]),
   fun h => absurd ((compareNode_exact_on_fragment _ _ (by decide)).1 h) (by simp),
   (compareNode_exact_on_fragment _ _ (by decide)).2 rfl⟩

/-! ## The qualifier as an argument, and the return value of `Transform` -/

/-- C14: `isStdChain` of a call is `isStdChain` of the called function, whatever
the arguments; so for a called function not rooted in `std` it is false for
every argument list, and a member access on such a call is not renamed, neither
by `Transform` nor by the walk. -/
theorem isStdChain_call_ignores_arguments :
    (∀ (fn : Node) (args : List Node), isStdChain (.CallExpr fn args) = isStdChain fn) ∧
    (∀ (fn : Node) (args args2 : List Node),
      isStdChain (.CallExpr fn args) = isStdChain (.CallExpr fn args2)) ∧
    (∀ (fn : Node) (args : List Node), isStdChain fn = false →
      isStdChain (.CallExpr fn args) = false) ∧
    (∀ (m : Mapping) (fn : Node) (args : List Node) (sel : String), isStdChain fn = false →
      Transform m (.SelectorExpr (.CallExpr fn args) sel) =
        (.SelectorExpr (.CallExpr fn args) sel, true) ∧
      Inspect m (.SelectorExpr (.CallExpr fn args) sel) =
        .SelectorExpr (Inspect m (.CallExpr fn args)) sel) := by
  refine ⟨fun _ _ => rfl, fun _ _ _ => rfl, fun fn args h => by simpa [isStdChain] using h, ?_⟩
  intro m fn args sel h
  simp [Transform, Inspect, transformSel, isStdChain, h]

/-- Witness of C14: the receiver `foo(std)` of `foo(std).Addr()` is not
qualified, and `Addr` is not renamed although it is a mapping key. -/
theorem isStdChain_call_ignores_arguments_witness :
    isStdChain (.CallExpr (.Ident "foo") [.Ident "std"]) = false ∧
    Transform sampleMapping (.SelectorExpr (.CallExpr (.Ident "foo") [.Ident "std"]) "Addr") =
      (.SelectorExpr (.CallExpr (.Ident "foo") [.Ident "std"]) "Addr", true) ∧
    Inspect sampleMapping
        (.CallExpr (.SelectorExpr (.CallExpr (.Ident "foo") [.Ident "std"]) "Addr") []) =
      .CallExpr (.SelectorExpr (.CallExpr (.Ident "foo") [.Ident "std"]) "Addr") [] :=
  ⟨isStdChain_call_ignores_arguments.2.2.1 (.Ident "foo") [.Ident "std"] (by decide),
   (isStdChain_call_ignores_arguments.2.2.2 sampleMapping (.Ident "foo") [.Ident "std"] "Addr"
      (by decide)).1,
   rfl⟩

/-- C15: `Transform` returns true for every node, nil included, and every
mapping, whether or not it renamed; so the walk is never pruned: the tree after
the walk of a node is the node as `Transform` leaves it with each of its
children walked, and no child is dropped. -/
theorem Transform_returns_true (m : Mapping) (n : Node) :
    (Transform m n).2 = true ∧
    Inspect m n = (Transform m n).1.mapChildren (Inspect m) ∧
    (Inspect m n).children.length = n.children.length := by
  refine ⟨(Inspect_preorder m n).1, (Inspect_preorder m n).2, ?_⟩
  cases n <;> simp [Inspect, Node.children, InspectList_eq_map]

/-! ## The directory run -/

/-- Processing a file keeps its path. -/
theorem ProcessFile_path (p : GnoFileProcessor) (f : Entry) :
    (ProcessFile p f).2.path = f.path := by
  unfold ProcessFile
  repeat' split
  all_goals rfl

/-- The walk function keeps the path of an entry, and keeps the whole entry when
the path does not match. -/
theorem walkFn_frame (p : GnoFileProcessor) (e : Entry) :
    (walkFn p e).2.path = e.path ∧
    (ShouldProcess e.path = false → (walkFn p e).2 = e) := by
  unfold walkFn
  constructor
  · split
    · rfl
    · split
      · split
        · rename_i h; have := ProcessFile_path p e; rw [h] at this; exact this
        · rename_i h; have := ProcessFile_path p e; rw [h] at this; exact this
      · rfl
  · intro hs
    simp [hs]
    split <;> rfl

/-- The result of the walk function is an error exactly when the walk hands
over an error or a matching file fails to process. -/
theorem walkFn_error_iff (p : GnoFileProcessor) (e : Entry) (err : DirError) :
    (walkFn p e).1 = .error err ↔
      (∃ werr, e.walkErr = some werr ∧ err = .walk werr) ∨
      (e.walkErr = none ∧ e.isDir = false ∧ ShouldProcess e.path = true ∧
        ∃ ferr, (ProcessFile p e).1 = .error ferr ∧ err = .failedToProcess e.path ferr) := by
  unfold walkFn
  cases hpf : ProcessFile p e with
  | mk r e2 =>
    cases hw : e.walkErr <;> cases r <;> cases hd : e.isDir <;>
      cases hs : ShouldProcess e.path <;> simp [eq_comm]

/-- A run without error has called the walk function with success on every
entry, and leaves each entry as the walk function leaves it. -/
theorem ProcessDir_ok (p : GnoFileProcessor) (es : List Entry) :
    ∀ es2, ProcessDir p es = (.ok (), es2) →
      es2 = es.map (fun e => (walkFn p e).2) ∧ ∀ e ∈ es, (walkFn p e).1 = .ok () := by
  induction es with
  | nil =>
    intro es2 h
    simp only [ProcessDir, Prod.mk.injEq, true_and] at h
    simp [← h]
  | cons e es ih =>
    intro es2 h
    simp only [ProcessDir] at h
    cases hw : walkFn p e with
    | mk r e2 =>
      rw [hw] at h
      cases r with
      | error err => simp at h
      | ok u =>
        cases hp : ProcessDir p es with
        | mk r2 es3 =>
          rw [hp] at h
          simp only [Prod.mk.injEq] at h
          obtain ⟨h1, h2⟩ := h
          subst h1
          have := ih es3 hp
          subst h2
          refine ⟨by simp [hw, this.1], ?_⟩
          intro x hx
          rcases List.mem_cons.1 hx with hx | hx
          · subst hx; simp [hw]
          · exact this.2 x hx

/-- A run that returns an error has stopped at the first entry on which the walk
function fails: the entries before it are as the walk function leaves them,
the entries after it are as they were. -/
theorem ProcessDir_error (p : GnoFileProcessor) (es : List Entry) :
    ∀ err es2, ProcessDir p es = (.error err, es2) →
      ∃ pre e post, es = pre ++ e :: post ∧
        (∀ x ∈ pre, (walkFn p x).1 = .ok ()) ∧
        (walkFn p e).1 = .error err ∧
        es2 = pre.map (fun x => (walkFn p x).2) ++ (walkFn p e).2 :: post := by
  induction es with
  | nil => intro err es2 h; simp [ProcessDir] at h
  | cons e es ih =>
    intro err es2 h
    simp only [ProcessDir] at h
    cases hw : walkFn p e with
    | mk r e2 =>
      rw [hw] at h
      cases r with
      | error err2 =>
        simp only [Prod.mk.injEq, Except.error.injEq] at h
        obtain ⟨h1, h2⟩ := h
        subst h1; subst h2
        exact ⟨[], e, es, rfl, by simp, by simp [hw], by simp [hw]⟩
      | ok u =>
        cases hp : ProcessDir p es with
        | mk r2 es3 =>
          rw [hp] at h
          simp only [Prod.mk.injEq] at h
          obtain ⟨h1, h2⟩ := h
          subst h1; subst h2
          obtain ⟨pre, f, post, hes, hpre, hf, hes3⟩ := ih err es3 hp
          refine ⟨e :: pre, f, post, by simp [hes], ?_, hf, by simp [hw, hes3]⟩
          intro x hx
          rcases List.mem_cons.1 hx with hx | hx
          · subst hx; simp [hw]
          · exact hpre x hx

/-- A run returns no error exactly when the walk function succeeds on every
entry. -/
theorem ProcessDir_ok_iff (p : GnoFileProcessor) (es : List Entry) :
    (ProcessDir p es).1 = .ok () ↔ ∀ e ∈ es, (walkFn p e).1 = .ok () := by
  constructor
  · intro h
    exact (ProcessDir_ok p es (ProcessDir p es).2 (by rw [← h])).2
  · intro h
    cases hp : ProcessDir p es with
    | mk r es2 =>
      cases r with
      | ok u => rfl
      | error err =>
        obtain ⟨pre, e, post, hes, _, he, _⟩ := ProcessDir_error p es err es2 hp
        have := h e (by simp [hes])
        rw [he] at this
        cases this

/-- The entries after a run, one by one: each keeps its path, and an entry whose
path does not match is as it was. -/
theorem ProcessDir_frame (p : GnoFileProcessor) (es : List Entry) :
    List.Forall₂ (fun e e2 => e2.path = e.path ∧ (ShouldProcess e.path = false → e2 = e))
      es (ProcessDir p es).2 := by
  induction es with
  | nil => simp [ProcessDir]
  | cons e es ih =>
    simp only [ProcessDir]
    have hf := walkFn_frame p e
    cases hw : walkFn p e with
    | mk r e2 =>
      rw [hw] at hf
      cases r with
      | error err =>
        refine List.Forall₂.cons hf ?_
        exact List.forall₂_same.2 (fun x _ => ⟨rfl, fun _ => rfl⟩)
      | ok u =>
        cases hp : ProcessDir p es with
        | mk r2 es3 =>
          rw [hp] at ih
          exact List.Forall₂.cons hf ih

/-- A matching file on which the walk function succeeds has been parsed, walked,
printed and rewritten with the printed text. -/
theorem walkFn_ok_matching (p : GnoFileProcessor) (e : Entry)
    (hw : e.walkErr = none) (hd : e.isDir = false) (hs : ShouldProcess e.path = true)
    (hok : (walkFn p e).1 = .ok ()) :
    ∃ file buf, p.ParseFile e.data = .ok file ∧
      p.formatNode (Inspect p.mapping file) = .ok buf ∧
      (walkFn p e).2 = ⟨e.path, e.isDir, e.walkErr, buf, e.readErr, e.statErr, e.writeErr⟩ := by
  unfold walkFn ProcessFile at *
  simp only [hw, hd, hs, Bool.not_false, Bool.and_self, if_true] at hok ⊢
  cases hr : e.readErr with
  | some err => simp [hr] at hok
  | none =>
    cases hp : p.ParseFile e.data with
    | error err => simp [hr, hp] at hok
    | ok file =>
      cases hf : p.formatNode (Inspect p.mapping file) with
      | error err => simp [hr, hp, hf] at hok
      | ok buf =>
        cases hst : e.statErr with
        | some err => simp [hr, hp, hf, hst] at hok
        | none =>
          cases hwr : e.writeErr with
          | some w => simp [hr, hp, hf, hst, hwr] at hok
          | none => exact ⟨file, buf, rfl, by simp [hf], by simp [hf, hd]⟩

/-- C16, counterexample: in a directory with a valid file `a.gno` before an
invalid file `b.gno`, `ProcessDir` returns an error, and the content of `a.gno`
has been rewritten. -/
theorem ProcessDir_error_after_rewrite :
    (ProcessDir sampleProcessor sampleDir).1 =
      .error (.failedToProcess "tmp/b.gno" "syntax error") ∧
    readDir sampleDir "tmp/a.gno" = some nestedFileText ∧
    readDir (ProcessDir sampleProcessor sampleDir).2 "tmp/a.gno" = some nestedExpectedText ∧
    nestedExpectedText ≠ nestedFileText :=
  ⟨rfl, by decide, by decide, by decide⟩

/-- An entry on which the walk function fails is left as it was, unless the
failure is that of `os.WriteFile`: then the file holds the bytes the failed
write leaves. -/
theorem walkFn_error_entry (p : GnoFileProcessor) (e : Entry) (err : DirError)
    (h : (walkFn p e).1 = .error err) :
    (walkFn p e).2 = e ∨
    ∃ werr left, e.writeErr = some (werr, left) ∧ err = .failedToProcess e.path werr ∧
      (walkFn p e).2 = ⟨e.path, e.isDir, e.walkErr, left, e.readErr, e.statErr, e.writeErr⟩ := by
  unfold walkFn ProcessFile at *
  cases hw : e.walkErr with
  | some w => left; simp
  | none =>
    by_cases hm : (!e.isDir && ShouldProcess e.path) = true
    · simp only [hw, hm, if_true] at h ⊢
      cases hr : e.readErr with
      | some r => left; simp
      | none =>
        cases hp : p.ParseFile e.data with
        | error perr => left; simp
        | ok file =>
          cases hf : p.formatNode (Inspect p.mapping file) with
          | error ferr => left; simp [hf]
          | ok buf =>
            cases hst : e.statErr with
            | some st => left; simp [hf]
            | none =>
              cases hwr : e.writeErr with
              | none => simp [hr, hp, hf, hst, hwr] at h
              | some wl =>
                obtain ⟨werr, left⟩ := wl
                right
                simp only [hr, hp, hf, hst, hwr, Except.error.injEq] at h
                exact ⟨werr, left, rfl, h.symm, by simp [hf, hw, hr, hst, hwr]⟩
    · left; simp [hm]

/-- C16, amended: the mapping is applied to the entries before the first failure.
When `ProcessDir` returns no error, the walk function has succeeded on every
entry and every entry is as it leaves it.  When `ProcessDir` returns an error,
this holds of the entries before the first one on which the walk function
fails; the entries after that one are as they were; and that one is as it was,
unless the failure is that of `os.WriteFile`, which leaves its own bytes in the
file.  A matching file on which the walk function succeeds is rewritten with
the printed tree of the rename walk on its parsed content. -/
theorem ProcessDir_applies_up_to_failure (p : GnoFileProcessor) (es : List Entry) :
    (∀ es2, ProcessDir p es = (.ok (), es2) →
      es2 = es.map (fun e => (walkFn p e).2) ∧ ∀ e ∈ es, (walkFn p e).1 = .ok ()) ∧
    (∀ err es2, ProcessDir p es = (.error err, es2) →
      ∃ pre e post e2, es = pre ++ e :: post ∧
        (∀ x ∈ pre, (walkFn p x).1 = .ok ()) ∧
        (walkFn p e).1 = .error err ∧
        es2 = pre.map (fun x => (walkFn p x).2) ++ e2 :: post ∧
        (e2 = e ∨
          ∃ werr left, e.writeErr = some (werr, left) ∧
            err = .failedToProcess e.path werr ∧
            e2 = ⟨e.path, e.isDir, e.walkErr, left, e.readErr, e.statErr, e.writeErr⟩)) ∧
    (∀ e : Entry, e.walkErr = none → e.isDir = false → ShouldProcess e.path = true →
      (walkFn p e).1 = .ok () →
      ∃ file buf, p.ParseFile e.data = .ok file ∧
        p.formatNode (Inspect p.mapping file) = .ok buf ∧
        (walkFn p e).2 = ⟨e.path, e.isDir, e.walkErr, buf, e.readErr, e.statErr, e.writeErr⟩) := by
  refine ⟨ProcessDir_ok p es, ?_, walkFn_ok_matching p⟩
  intro err es2 h
  obtain ⟨pre, e, post, hes, hpre, he, hes2⟩ := ProcessDir_error p es err es2 h
  exact ⟨pre, e, post, (walkFn p e).2, hes, hpre, he, hes2, walkFn_error_entry p e err he⟩

/-- Witness of C16: the sample directory splits at `b.gno`; `a.gno` before it is
rewritten, `sample.txt` and `z.gno` after it are as they were, and `b.gno`
itself, which fails to parse, is as it was.  In a directory whose one file
fails at the write, the file holds what the failed write left. -/
theorem ProcessDir_applies_up_to_failure_witness :
    (∃ pre e post e2, sampleDir = pre ++ e :: post ∧
      (∀ x ∈ pre, (walkFn sampleProcessor x).1 = .ok ()) ∧
      (walkFn sampleProcessor e).1 = .error (.failedToProcess "tmp/b.gno" "syntax error") ∧
      [directory "tmp", regularFile "tmp/a.gno" nestedExpectedText,
        regularFile "tmp/b.gno" invalidText,
        regularFile "tmp/sample.txt" "This is not a gno file.",
        regularFile "tmp/z.gno" nestedFileText] =
        pre.map (fun x => (walkFn sampleProcessor x).2) ++ e2 :: post ∧
      (e2 = e ∨
        ∃ werr left, e.writeErr = some (werr, left) ∧
          DirError.failedToProcess "tmp/b.gno" "syntax error" = .failedToProcess e.path werr ∧
          e2 = ⟨e.path, e.isDir, e.walkErr, left, e.readErr, e.statErr, e.writeErr⟩)) ∧
    (∃ pre e post e2,
      [(⟨"tmp/a.gno", false, none, nestedFileText, none, none,
          some ("no space left on device", "")⟩ : Entry)] = pre ++ e :: post ∧
      (∀ x ∈ pre, (walkFn sampleProcessor x).1 = .ok ()) ∧
      (walkFn sampleProcessor e).1 =
        .error (.failedToProcess "tmp/a.gno" "no space left on device") ∧
      [(⟨"tmp/a.gno", false, none, "", none, none,
          some ("no space left on device", "")⟩ : Entry)] =
        pre.map (fun x => (walkFn sampleProcessor x).2) ++ e2 :: post ∧
      (e2 = e ∨
        ∃ werr left, e.writeErr = some (werr, left) ∧
          DirError.failedToProcess "tmp/a.gno" "no space left on device" =
            .failedToProcess e.path werr ∧
          e2 = ⟨e.path, e.isDir, e.walkErr, left, e.readErr, e.statErr, e.writeErr⟩)) :=
  ⟨(ProcessDir_applies_up_to_failure sampleProcessor sampleDir).2.1 _ _ rfl,
   (ProcessDir_applies_up_to_failure sampleProcessor _).2.1 _ _ rfl⟩

/-- C17, counterexample: the walk of a root that does not exist is one call of the
walk function with the error of `os.Lstat`.  `ProcessDir` returns that error,
not wrapped, and no matching file has failed to process. -/
theorem ProcessDir_walk_error_without_file_failure :
    (ProcessDir sampleProcessor missingRoot).1 =
      .error (.walk "lstat missing: no such file or directory") ∧
    ¬ ∃ e ∈ missingRoot, e.isDir = false ∧ ShouldProcess e.path = true ∧
      ∃ ferr, (ProcessFile sampleProcessor e).1 = .error ferr := by
  refine ⟨rfl, ?_⟩
  rintro ⟨e, he, _, hs, _⟩
  simp only [missingRoot, List.mem_singleton] at he
  subst he
  revert hs
  decide

/-- C17, amended: `ProcessDir` returns an error if and only if, for some entry of
the walk, the walk itself hands over an error or the entry is a matching file
whose processing fails.  The error is that of the first such entry in walk
order: the error of the walk as it is, or the error of `ProcessFile` wrapped
with the path of the file.  The entries after that entry are as they were. -/
theorem ProcessDir_aborts_on_first_error (p : GnoFileProcessor) (es : List Entry) :
    ((∃ err, (ProcessDir p es).1 = .error err) ↔
      ∃ e ∈ es, (∃ werr, e.walkErr = some werr) ∨
        (e.walkErr = none ∧ e.isDir = false ∧ ShouldProcess e.path = true ∧
          ∃ ferr, (ProcessFile p e).1 = .error ferr)) ∧
    (∀ err es2, ProcessDir p es = (.error err, es2) →
      ∃ pre e post pre2 e2, es = pre ++ e :: post ∧
        (∀ x ∈ pre, x.walkErr = none ∧
          ¬ (x.isDir = false ∧ ShouldProcess x.path = true ∧
            ∃ xerr, (ProcessFile p x).1 = .error xerr)) ∧
        ((∃ werr, e.walkErr = some werr ∧ err = .walk werr) ∨
          (e.walkErr = none ∧ e.isDir = false ∧ ShouldProcess e.path = true ∧
            ∃ ferr, (ProcessFile p e).1 = .error ferr ∧
              err = .failedToProcess e.path ferr)) ∧
        es2 = pre2 ++ e2 :: post ∧ pre2.length = pre.length) := by
  have hfail : ∀ e : Entry, ((∃ werr, e.walkErr = some werr) ∨
      (e.walkErr = none ∧ e.isDir = false ∧ ShouldProcess e.path = true ∧
        ∃ ferr, (ProcessFile p e).1 = .error ferr)) → ∃ err, (walkFn p e).1 = .error err := by
    rintro e (⟨werr, hw⟩ | ⟨hw, hd, hs, ferr, hf⟩)
    · exact ⟨.walk werr, (walkFn_error_iff p e _).2 (Or.inl ⟨werr, hw, rfl⟩)⟩
    · exact ⟨.failedToProcess e.path ferr,
        (walkFn_error_iff p e _).2 (Or.inr ⟨hw, hd, hs, ferr, hf, rfl⟩)⟩
  have hsplit : ∀ err es2, ProcessDir p es = (.error err, es2) →
      ∃ pre e post pre2 e2, es = pre ++ e :: post ∧
        (∀ x ∈ pre, x.walkErr = none ∧
          ¬ (x.isDir = false ∧ ShouldProcess x.path = true ∧
            ∃ xerr, (ProcessFile p x).1 = .error xerr)) ∧
        ((∃ werr, e.walkErr = some werr ∧ err = .walk werr) ∨
          (e.walkErr = none ∧ e.isDir = false ∧ ShouldProcess e.path = true ∧
            ∃ ferr, (ProcessFile p e).1 = .error ferr ∧
              err = .failedToProcess e.path ferr)) ∧
        es2 = pre2 ++ e2 :: post ∧ pre2.length = pre.length := by
    intro err es2 h
    obtain ⟨pre, e, post, hes, hpre, he, hes2⟩ := ProcessDir_error p es err es2 h
    refine ⟨pre, e, post, _, _, hes, ?_, (walkFn_error_iff p e err).1 he, hes2, by simp⟩
    intro x hx
    have hok := hpre x hx
    have hxw : x.walkErr = none := by
      cases hxw : x.walkErr with
      | none => rfl
      | some werr =>
        obtain ⟨xerr, hxe⟩ := hfail x (Or.inl ⟨werr, hxw⟩)
        rw [hok] at hxe
        cases hxe
    refine ⟨hxw, ?_⟩
    rintro ⟨hxd, hxs, xerr, hxf⟩
    obtain ⟨xerr2, hxe⟩ := hfail x (Or.inr ⟨hxw, hxd, hxs, xerr, hxf⟩)
    rw [hok] at hxe
    cases hxe
  refine ⟨?_, hsplit⟩
  constructor
  · rintro ⟨err, h⟩
    obtain ⟨pre, e, post, _, _, hes, _, he, _⟩ := hsplit err (ProcessDir p es).2 (by rw [← h])
    refine ⟨e, by simp [hes], ?_⟩
    rcases he with ⟨werr, hw, _⟩ | ⟨hw, hd, hs, ferr, hf, _⟩
    · exact Or.inl ⟨werr, hw⟩
    · exact Or.inr ⟨hw, hd, hs, ferr, hf⟩
  · rintro ⟨e, he, hcase⟩
    obtain ⟨xerr, hxe⟩ := hfail e hcase
    cases hr : (ProcessDir p es).1 with
    | error err => exact ⟨err, rfl⟩
    | ok u =>
      have := (ProcessDir_ok_iff p es).1 hr e he
      rw [hxe] at this
      cases this

/-- Witness of C17: in the sample directory the invalid file `b.gno` is the first
entry to fail; its error is returned with its path, and the two entries after
it are as they were.  On the missing root the error of the walk is returned. -/
theorem ProcessDir_aborts_on_first_error_witness :
    (∃ err, (ProcessDir sampleProcessor missingRoot).1 = .error err) ∧
    ∃ pre e post pre2 e2, sampleDir = pre ++ e :: post ∧
      (∀ x ∈ pre, x.walkErr = none ∧
        ¬ (x.isDir = false ∧ ShouldProcess x.path = true ∧
          ∃ xerr, (ProcessFile sampleProcessor x).1 = .error xerr)) ∧
      ((∃ werr, e.walkErr = some werr ∧
          DirError.failedToProcess "tmp/b.gno" "syntax error" = .walk werr) ∨
        (e.walkErr = none ∧ e.isDir = false ∧ ShouldProcess e.path = true ∧
          ∃ ferr, (ProcessFile sampleProcessor e).1 = .error ferr ∧
            DirError.failedToProcess "tmp/b.gno" "syntax error" =
              .failedToProcess e.path ferr)) ∧
      [directory "tmp", regularFile "tmp/a.gno" nestedExpectedText,
        regularFile "tmp/b.gno" invalidText,
        regularFile "tmp/sample.txt" "This is not a gno file.",
        regularFile "tmp/z.gno" nestedFileText] = pre2 ++ e2 :: post ∧
      pre2.length = pre.length :=
  ⟨((ProcessDir_aborts_on_first_error sampleProcessor missingRoot).1).2
      ⟨_, List.mem_singleton.2 rfl, Or.inl ⟨_, rfl⟩⟩,
   (ProcessDir_aborts_on_first_error sampleProcessor sampleDir).2 _ _ rfl⟩

/-- The bytes at a path of the directory are the same in two lists of entries
that agree, one by one, on the paths and on the entries at that path. -/
theorem readDir_congr (path : String) (es es2 : List Entry)
    (h : List.Forall₂ (fun e e2 => e2.path = e.path ∧ (e.path = path → e2 = e)) es es2) :
    readDir es2 path = readDir es path := by
  induction h with
  | nil => rfl
  | @cons a b l1 l2 hab _ ih =>
    unfold readDir at ih ⊢
    by_cases hp : a.path = path
    · have hb : b = a := hab.2 hp
      subst hb
      simp [List.find?, hp]
    · have ha1 : (a.path == path) = false := by simpa using hp
      have hb1 : (b.path == path) = false := by rw [hab.1]; exact ha1
      simp only [List.find?, ha1, hb1]
      exact ih

/-- C18: after `ProcessDir`, with or without error and for every mapping, each
entry whose path `ShouldProcess` rejects is as it was, at the same place of the
walk; so in the directory as a map from path to bytes, the bytes at every path
that `ShouldProcess` rejects are the same before and after. -/
theorem ProcessDir_keeps_non_matching (p : GnoFileProcessor) (es : List Entry) :
    (ProcessDir p es).2.length = es.length ∧
    (∀ (i : Nat) (e : Entry), es[i]? = some e → ShouldProcess e.path = false →
      (ProcessDir p es).2[i]? = some e) ∧
    (∀ path : String, ShouldProcess path = false →
      readDir (ProcessDir p es).2 path = readDir es path) := by
  have hf := ProcessDir_frame p es
  refine ⟨hf.length_eq.symm, ?_, ?_⟩
  · intro i e hi hs
    have hlt : i < es.length := by
      rcases Nat.lt_or_ge i es.length with h | h
      · exact h
      · rw [List.getElem?_eq_none h] at hi; cases hi
    have hlt2 : i < (ProcessDir p es).2.length := by rw [← hf.length_eq]; exact hlt
    have hrel := List.Forall₂.get hf hlt hlt2
    have he : es.get ⟨i, hlt⟩ = e := by
      rw [List.getElem?_eq_getElem hlt] at hi
      simpa using hi
    rw [he] at hrel
    rw [List.getElem?_eq_getElem hlt2]
    have := hrel.2 hs
    simpa using this
  · intro path hs
    apply readDir_congr
    refine List.Forall₂.imp ?_ hf
    intro a b hab
    exact ⟨hab.1, fun hp => hab.2 (by rw [hp]; exact hs)⟩

/-- Witness of C18: `sample.txt` of the sample directory has the same bytes after
the run, which fails. -/
theorem ProcessDir_keeps_non_matching_witness :
    ShouldProcess "tmp/sample.txt" = false ∧
    (ProcessDir sampleProcessor sampleDir).2[3]? =
      some (regularFile "tmp/sample.txt" "This is not a gno file.") ∧
    readDir (ProcessDir sampleProcessor sampleDir).2 "tmp/sample.txt" =
      readDir sampleDir "tmp/sample.txt" :=
  ⟨by decide,
   (ProcessDir_keeps_non_matching sampleProcessor sampleDir).2.1 3 _ rfl (by decide),
   (ProcessDir_keeps_non_matching sampleProcessor sampleDir).2.2 _ (by decide)⟩

/-! ## The comparator and the rename -/

/-- On a block statement as `got`, `compareNode` looks at `want` only to see
whether it is nil. -/
theorem compareNode_block (g g2 w : Node) (hg : isBlockStmt g = true)
    (hg2 : isBlockStmt g2 = true) : compareNode g w = compareNode g2 w := by
  cases g <;> simp [isBlockStmt] at hg <;> cases g2 <;> simp [isBlockStmt] at hg2 <;>
    cases w <;> simp [compareNode]

/-- The walk of a block statement is a block statement. -/
theorem isBlockStmt_Inspect (m : Mapping) (b : Node) :
    isBlockStmt (Inspect m b) = isBlockStmt b := by
  cases b <;> simp [Inspect, isBlockStmt]

/-- The closure of `compareSpecs` does not see the walk. -/
theorem compareSpec_Inspect (m : Mapping) (s w : Node) :
    compareSpec (Inspect m s) w = compareSpec s w := by
  cases s <;> simp [Inspect, compareSpec]

/-- The loop of `compareSlice` on a mapped list, when the comparator does not
see the map. -/
theorem compareSliceFrom_map {α : Type} (cmp : α → α → Result) (f : α → α) (gs : List α)
    (h : ∀ g ∈ gs, ∀ w, cmp (f g) w = cmp g w) :
    ∀ (k : Nat) (ws : List α),
      compareSliceFrom cmp k (gs.map f) ws = compareSliceFrom cmp k gs ws := by
  induction gs with
  | nil => intro k ws; rfl
  | cons g gs ih =>
    intro k ws
    cases ws with
    | nil => rfl
    | cons w ws =>
      simp only [List.map_cons, compareSliceFrom, h g (List.mem_cons_self g gs) w,
        ih (fun x hx => h x (List.mem_cons_of_mem g hx)) (k + 1) ws]

/-- The closure of `compareDecls` does not see the walk of a declaration whose
body is a block statement. -/
theorem compareDecl_Inspect (m : Mapping) (d w : Node) (hd : declBodyIsBlock d = true) :
    compareDecl (Inspect m d) w = compareDecl d w := by
  cases d with
  | FuncDecl recv name typ body =>
    simp only [declBodyIsBlock] at hd
    cases w <;> simp only [Inspect, compareDecl]
    rw [compareNode_block (Inspect m body) body _ (by rw [isBlockStmt_Inspect]; exact hd) hd]
  | GenDecl tok specs =>
    cases w <;> simp only [Inspect, compareDecl]
    simp only [compareSpecs, compareSlice, InspectList_eq_map, List.length_map]
    rw [compareSliceFrom_map compareSpec (Inspect m) specs
      (fun g _ w => compareSpec_Inspect m g w)]
  | _ => simp [Inspect, compareDecl]

/-- The declarations of a file compare the same before and after the walk. -/
theorem compareDecls_Inspect (m : Mapping) (decls wdecls : List Node)
    (h : BodiesAreBlocks decls) :
    compareDecls (decls.map (Inspect m)) wdecls = compareDecls decls wdecls := by
  simp only [compareDecls, compareSlice, List.length_map]
  rw [compareSliceFrom_map compareDecl (Inspect m) decls
    (fun g hg w => compareDecl_Inspect m g w (h g hg))]

/-- The file comparator gives the same result on a file and on its walk. -/
theorem Compare_File_Inspect (m : Mapping) (name : String) (decls : List Node) (w : Node)
    (h : BodiesAreBlocks decls) :
    TypeComparator.Compare .File fileCompareFunc (Inspect m (.File name decls)) w =
      TypeComparator.Compare .File fileCompareFunc (.File name decls) w := by
  cases w <;>
    simp [TypeComparator.Compare, Inspect, Node.kind, fileCompareFunc, InspectList_eq_map,
      compareDecls_Inspect m decls _ h]

/-- C19: the file comparator cannot observe the rename.  For every file whose
function bodies are block statements, and every mapping, comparing the walked
file against the original succeeds; and against any `want`, the walked file and
the original give the same result, by `compareNode` and by `compareAST`. -/
theorem comparator_cannot_observe_rename (m : Mapping) (name : String) (decls : List Node)
    (h : BodiesAreBlocks decls) :
    compareNode (Inspect m (.File name decls)) (.File name decls) = .ok () ∧
    (∀ w : Node, compareNode (Inspect m (.File name decls)) w =
      compareNode (.File name decls) w) ∧
    (∀ (ParseFile : String → Except String Node) (got want : String),
      ParseFile got = .ok (Inspect m (.File name decls)) →
      ParseFile want = .ok (.File name decls) →
      compareAST ParseFile got want = .ok ()) ∧
    (∀ (ParseFile : String → Except String Node) (renamed original want : String),
      ParseFile renamed = .ok (Inspect m (.File name decls)) →
      ParseFile original = .ok (.File name decls) →
      compareAST ParseFile renamed want = compareAST ParseFile original want) := by
  have hnode : ∀ w : Node, compareNode (Inspect m (.File name decls)) w =
      compareNode (.File name decls) w := by
    intro w
    by_cases hw : w = .nil
    · subst hw; simp [Inspect, compareNode]
    · have h1 := compareNode_File name (InspectList m decls) w hw
      have h2 := compareNode_File name decls w hw
      have h3 := Compare_File_Inspect m name decls w h
      simp only [Inspect] at h3 ⊢
      rw [h1, h2, h3]
  have hrefl := compareNode_compareDecl_refl (.File name decls)
  refine ⟨by rw [hnode]; exact hrefl.1, hnode, ?_, ?_⟩
  · intro ParseFile got want hgot hwant
    have h3 := Compare_File_Inspect m name decls (.File name decls) h
    have h4 := compareNode_File name decls (.File name decls) (by simp)
    simp only [compareAST, hgot, hwant, h3, ← h4, hrefl.1]
  · intro ParseFile renamed original want hren horig
    simp only [compareAST, hren, horig]
    cases ParseFile want with
    | error err => rfl
    | ok wantAst => simp only [Compare_File_Inspect m name decls wantAst h]

/-- Witness of C19: the walked sample file, which is the expected file of
`TestProcessDir`, compares as equal to the sample file before the walk. -/
theorem comparator_cannot_observe_rename_witness :
    Inspect sampleMapping sampleFile = expectedFile ∧
    compareNode expectedFile sampleFile = .ok () ∧
    compareAST nestedParseFile nestedExpectedText nestedFileText = .ok () :=
  ⟨rfl,
   (comparator_cannot_observe_rename sampleMapping "main" sampleFile.children
      (by decide)).1,
   (comparator_cannot_observe_rename sampleMapping "main" nestedFile.children
      (by decide)).2.2.1 nestedParseFile nestedExpectedText nestedFileText rfl rfl⟩

/-! ## The extension test -/

/-- The loop of `filepath.Ext`, entered at `n` when no byte from `n` on is a dot
or a separator: it returns the empty string, and then every dot of the path is
followed by a separator, or it returns the suffix of the path that starts at a
dot and has no other dot and no separator. -/
theorem extLoop_spec (path : GoString) :
    ∀ n : Nat, n ≤ path.length →
      (∀ (j : Nat) (c : Char), n ≤ j → path[j]? = some c → c ≠ '.' ∧ c ≠ '/') →
      (extLoop path n = [] ∧
        ∀ i : Nat, path[i]? = some '.' → ∃ j : Nat, i < j ∧ path[j]? = some '/') ∨
      (∃ (i : Nat) (rest : GoString), path.drop i = '.' :: rest ∧
        extLoop path n = '.' :: rest ∧ '.' ∉ rest ∧ '/' ∉ rest) := by
  intro n
  induction n with
  | zero =>
    intro _ hinv
    left
    refine ⟨rfl, ?_⟩
    intro i hi
    exact absurd rfl (hinv i '.' (Nat.zero_le i) hi).1
  | succ k ih =>
    intro hk hinv
    have hlt : k < path.length := hk
    have hget : path[k]? = some path[k] := List.getElem?_eq_getElem hlt
    simp only [extLoop, hget]
    by_cases hsep : path[k] = '/'
    · left
      simp only [hsep, if_true, true_and]
      intro i hi
      rcases Nat.lt_trichotomy i k with h | h | h
      · exact ⟨k, h, by rw [hget, hsep]⟩
      · subst h
        rw [hget, hsep] at hi
        exact absurd hi (by decide)
      · exact absurd rfl (hinv i '.' h hi).1
    · by_cases hdot : path[k] = '.'
      · right
        simp only [hsep, hdot, if_false, if_true]
        have hdrop : path.drop k = '.' :: path.drop (k + 1) := by
          rw [List.drop_eq_getElem_cons hlt, hdot]
        have hrest : ∀ c ∈ path.drop (k + 1), c ≠ '.' ∧ c ≠ '/' := by
          intro c hc
          obtain ⟨j, hj⟩ := List.mem_iff_getElem?.1 hc
          rw [List.getElem?_drop] at hj
          exact hinv (k + 1 + j) c (Nat.le_add_right _ _) hj
        exact ⟨k, path.drop (k + 1), hdrop, hdrop,
          fun h => (hrest _ h).1 rfl, fun h => (hrest _ h).2 rfl⟩
      · simp only [hsep, hdot, if_false]
        apply ih (Nat.le_of_lt hlt)
        intro j c hj hc
        rcases Nat.eq_or_lt_of_le hj with h | h
        · subst h
          rw [hget] at hc
          have hc2 : path[k] = c := by simpa using hc
          rw [← hc2]
          exact ⟨hdot, hsep⟩
        · exact hinv j c h hc

/-- The shape of an extension: empty, or one dot followed by bytes that are
neither a dot nor a separator; and it is a suffix of the path. -/
theorem Ext_shape (path : GoString) :
    (Ext path = [] ∧
      ∀ i : Nat, path[i]? = some '.' → ∃ j : Nat, i < j ∧ path[j]? = some '/') ∨
    (∃ (i : Nat) (rest : GoString), path.drop i = '.' :: rest ∧
      Ext path = '.' :: rest ∧ '.' ∉ rest ∧ '/' ∉ rest) := by
  apply extLoop_spec path path.length (Nat.le_refl _)
  intro j c hj hc
  rw [List.getElem?_eq_none hj] at hc
  cases hc

/-- A string with one dot, at its start, ends with `.gno` only if it is `.gno`. -/
theorem HasSuffix_gno (rest : GoString) (hrest : '.' ∉ rest)
    (h : HasSuffix ('.' :: rest) ['.', 'g', 'n', 'o'] = true) :
    '.' :: rest = ['.', 'g', 'n', 'o'] := by
  simp only [HasSuffix, List.length_cons, List.length_nil, Bool.and_eq_true,
    decide_eq_true_eq, beq_iff_eq] at h
  obtain ⟨hlen, hdrop⟩ := h
  rcases Nat.eq_or_lt_of_le hlen with h3 | h3
  · have h0 : rest.length + 1 - (0 + 1 + 1 + 1 + 1) = 0 := by omega
    rw [h0] at hdrop
    simpa using hdrop
  · obtain ⟨k, hk⟩ : ∃ k, rest.length + 1 - (0 + 1 + 1 + 1 + 1) = k + 1 := ⟨rest.length - 4, by omega⟩
    rw [hk, List.drop_succ_cons] at hdrop
    have : '.' ∈ rest.drop k := by rw [hdrop]; simp
    exact absurd (List.mem_of_mem_drop this) hrest

/-- C20: `ShouldProcess(path)` is true if and only if the extension of the path is
exactly `.gno`.  The extension is empty, when every dot of the path is followed
by a separator, or it is the suffix of the path that starts at a dot and holds
no other dot and no separator; so it ends with `.gno` only when it is `.gno`. -/
theorem ShouldProcess_iff_ext_is_gno (path : String) :
    (ShouldProcess path = true ↔ Ext path.data = ".gno".data) ∧
    ((Ext path.data = [] ∧
        ∀ i : Nat, path.data[i]? = some '.' →
          ∃ j : Nat, i < j ∧ path.data[j]? = some '/') ∨
      (∃ (i : Nat) (rest : GoString), path.data.drop i = '.' :: rest ∧
        Ext path.data = '.' :: rest ∧ '.' ∉ rest ∧ '/' ∉ rest)) := by
  refine ⟨?_, Ext_shape path.data⟩
  have hg : ".gno".data = ['.', 'g', 'n', 'o'] := rfl
  unfold ShouldProcess
  rw [hg]
  constructor
  · intro h
    rcases Ext_shape path.data with ⟨hnil, _⟩ | ⟨i, rest, _, hext, hdot, _⟩
    · rw [hnil] at h
      exact absurd h (by decide)
    · rw [hext] at h ⊢
      exact HasSuffix_gno rest hdot h
  · intro h
    rw [h]
    decide

/-- Witness of C20: the extension of `test.gnoA` is `.gnoA`, not `.gno`, so the
path is rejected; the extension of `/path.gno/test` is empty. -/
theorem ShouldProcess_iff_ext_is_gno_witness :
    Ext "test.gnoA".data = ".gnoA".data ∧
    ShouldProcess "test.gnoA" ≠ true ∧
    ShouldProcess "/path/to/test.gno" = true ∧
    Ext "/path.gno/test".data = [] :=
  ⟨by decide,
   fun h => absurd ((ShouldProcess_iff_ext_is_gno "test.gnoA").1.1 h) (by decide),
   (ShouldProcess_iff_ext_is_gno "/path/to/test.gno").1.2 (by decide),
   by decide⟩

end Renamatic
